import Mathlib

/-!
Verification development for the Rust cJSON port (`src/cJSON.rs`).

The Rust code is shallowly embedded:
* byte buffers are `List Nat` (each element a byte value < 256);
* Rust `String` is Lean `String` (both are sequences of Unicode scalar
  values backed by UTF-8), with explicit UTF-8 encode/decode helpers
  mirroring `str::as_bytes` and `String::from_utf8`;
* `f64` values are modelled as exact rationals `ℚ`; every finite double is a
  rational, and the properties proved here (ordering against the i32 bounds,
  truncation toward zero) are order-theoretic and agree with IEEE semantics
  on finite values.  `f64::from_str` is modelled as exact rational parsing of
  the same grammar (no rounding step); theorems only evaluate it at exactly
  representable values.  Rust's shortest-roundtrip `Display` for `f64` is
  modelled by `fmtF64`, exact on integral values (the only ones theorems
  rely on);
* the recursive-descent parser is given explicit fuel; entry points pass
  fuel strictly larger than any reachable recursion depth (every three
  nested calls consume at least one input byte), and general lemmas carry
  their fuel bounds as hypotheses;
* the `Rc<RefCell<_>>` tree is modelled two ways: as a pure inductive tree
  (`JNode`, children as a list — sufficient for the parser and printer,
  which never read `prev`), and as an arena of nodes addressed by `Nat`
  ids with explicit `next`/`prev`/`child` links (`Heap`) for the mutation
  API, whose back-edge convention is about the `prev` pointers themselves.
-/

namespace CJSONPort

/-! ## Bytes and UTF-8 -/

/-- UTF-8 encoding of one Unicode scalar value, the standard length bands. -/
def utf8EncodeChar (c : Char) : List Nat :=
  let n := c.toNat
  if n < 0x80 then [n]
  else if n < 0x800 then
    [0xC0 ||| (n >>> 6), 0x80 ||| (n &&& 0x3F)]
  else if n < 0x10000 then
    [0xE0 ||| (n >>> 12), 0x80 ||| ((n >>> 6) &&& 0x3F), 0x80 ||| (n &&& 0x3F)]
  else
    [0xF0 ||| (n >>> 18), 0x80 ||| ((n >>> 12) &&& 0x3F),
     0x80 ||| ((n >>> 6) &&& 0x3F), 0x80 ||| (n &&& 0x3F)]

/-- Model of Rust `str::as_bytes`: the UTF-8 bytes of a string. -/
def strBytes (s : String) : List Nat :=
  s.data.flatMap utf8EncodeChar

/-- Is `b` a UTF-8 continuation byte (`10xxxxxx`)? -/
def isCont (b : Nat) : Bool := 0x80 ≤ b && b < 0xC0

/-- Strict UTF-8 decoding of a byte list, rejecting overlong encodings,
surrogate code points and out-of-range values, as Rust
`String::from_utf8` does.  Returns the decoded characters. -/
def utf8DecodeChars : List Nat → Option (List Char)
  | [] => some []
  | b :: rest =>
    if b < 0x80 then
      match utf8DecodeChars rest with
      | some cs => some (Char.ofNat b :: cs)
      | none => none
    else if b < 0xC2 then
      -- 0x80–0xBF: stray continuation; 0xC0/0xC1: always overlong
      none
    else if b < 0xE0 then
      match rest with
      | b2 :: r2 =>
        if isCont b2 then
          match utf8DecodeChars r2 with
          | some cs => some (Char.ofNat (((b &&& 0x1F) <<< 6) ||| (b2 &&& 0x3F)) :: cs)
          | none => none
        else none
      | [] => none
    else if b < 0xF0 then
      match rest with
      | b2 :: b3 :: r3 =>
        if isCont b2 && isCont b3 then
          let cp := ((b &&& 0x0F) <<< 12) ||| ((b2 &&& 0x3F) <<< 6) ||| (b3 &&& 0x3F)
          if cp < 0x800 then none
          else if 0xD800 ≤ cp && cp ≤ 0xDFFF then none
          else
            match utf8DecodeChars r3 with
            | some cs => some (Char.ofNat cp :: cs)
            | none => none
        else none
      | _ => none
    else if b < 0xF5 then
      match rest with
      | b2 :: b3 :: b4 :: r4 =>
        if isCont b2 && isCont b3 && isCont b4 then
          let cp := ((b &&& 0x07) <<< 18) ||| ((b2 &&& 0x3F) <<< 12) |||
                    ((b3 &&& 0x3F) <<< 6) ||| (b4 &&& 0x3F)
          if cp < 0x10000 then none
          else if cp > 0x10FFFF then none
          else
            match utf8DecodeChars r4 with
            | some cs => some (Char.ofNat cp :: cs)
            | none => none
        else none
      | _ => none
    else none

/-- Model of Rust `String::from_utf8(bytes).ok()`. -/
def utf8DecodeString (bs : List Nat) : Option String :=
  match utf8DecodeChars bs with
  | some cs => some (String.mk cs)
  | none => none

/-! ## The value tree (pure view used by parser and printer)

Mirrors `struct CJSON`.  The `next`/`prev` sibling links are folded into a
`child` list: the parser and printer traverse siblings only forward and
only the mutation API (modelled separately on `Heap` below) observes
`prev`. -/

/-- cJSON type tags, as in the source. -/
def CJSON_INVALID : Nat := 0
def CJSON_FALSE : Nat := 1
def CJSON_TRUE : Nat := 2
def CJSON_NULL : Nat := 4
def CJSON_NUMBER : Nat := 8
def CJSON_STRING : Nat := 16
def CJSON_ARRAY : Nat := 32
def CJSON_OBJECT : Nat := 64
def CJSON_RAW : Nat := 128
def CJSON_IS_REFERENCE : Nat := 256
def CJSON_STRING_IS_CONST : Nat := 512

def CJSON_NESTING_LIMIT : Nat := 1000

/-- One JSON value node: `item_type`, `valuestring`, `valueint`,
`valuedouble`, `string` (the object-member key) and the child list. -/
inductive JNode where
  | node (item_type : Nat) (valuestring : Option String) (valueint : Int)
      (valuedouble : ℚ) (string : Option String) (child : List JNode)

def JNode.item_type : JNode → Nat
  | .node t _ _ _ _ _ => t

def JNode.valuestring : JNode → Option String
  | .node _ vs _ _ _ _ => vs

def JNode.valueint : JNode → Int
  | .node _ _ vi _ _ _ => vi

def JNode.valuedouble : JNode → ℚ
  | .node _ _ _ vd _ _ => vd

def JNode.string : JNode → Option String
  | .node _ _ _ _ s _ => s

def JNode.child : JNode → List JNode
  | .node _ _ _ _ _ c => c

/-- Fresh item, as produced by `cJSON_New_Item` (type `CJSON_NULL`,
everything else default). -/
def cJSON_New_Item : JNode := .node CJSON_NULL none 0 0 none []

/-- Replace the `string` (key) field, as `parse_object` does after moving
the parsed name out of `valuestring`. -/
def JNode.withKey : JNode → String → JNode
  | .node t vs vi vd _ c, k => .node t vs vi vd (some k) c

/-! ## Parse buffer (`struct ParseBuffer`) -/

structure ParseBuffer where
  content : List Nat
  offset : Nat
  depth : Nat
  length : Nat
  deriving DecidableEq

namespace ParseBuffer

/-- `self.offset + index >= self.content.len()` — note the Rust port checks
against the physical `content` length, not the declared `length`. -/
def cannot_access_at_index (pb : ParseBuffer) (index : Nat) : Bool :=
  pb.content.length ≤ pb.offset + index

/-- `self.offset + index < self.content.len()`. -/
def can_access_at_index (pb : ParseBuffer) (index : Nat) : Bool :=
  pb.offset + index < pb.content.length

/-- `&self.content[self.offset..]`. -/
def buffer_at_offset (pb : ParseBuffer) : List Nat :=
  pb.content.drop pb.offset

/-- `self.offset + length <= self.content.len()`. -/
def can_read (pb : ParseBuffer) (length : Nat) : Bool :=
  pb.offset + length ≤ pb.content.length

/-- `u8::is_ascii_whitespace`: space, tab, line feed, form feed, carriage
return. -/
def isAsciiWs (b : Nat) : Bool :=
  b == 0x20 || b == 0x09 || b == 0x0A || b == 0x0C || b == 0x0D

/-- Iteration core of `skip_whitespace`; the fuel `pb.length - pb.offset`
is exactly the maximum number of steps the loop can take, so the unfolding
is exact. -/
def skip_whitespace_aux : Nat → ParseBuffer → ParseBuffer
  | 0, pb => pb
  | fuel + 1, pb =>
    if pb.offset < pb.length ∧ isAsciiWs (pb.content.getD pb.offset 0) then
      skip_whitespace_aux fuel { pb with offset := pb.offset + 1 }
    else pb

/-- `skip_whitespace`: advance while `offset < length` and the byte at
`offset` is ASCII whitespace.  (This is the one access loop in the port
that does respect the declared `length`.)  Where the Rust code would index
out of bounds (offset inside the declared length but past the physical
content) the model reads byte 0, which is not whitespace, and stops. -/
def skip_whitespace (pb : ParseBuffer) : ParseBuffer :=
  skip_whitespace_aux (pb.length - pb.offset) pb

end ParseBuffer

/-! ## Number parsing -/

/-- `get_decimal_point` — the placeholder locale point. -/
def get_decimal_point : Char := '.'

/-- Characters the number scanner copies. -/
def isNumByte (b : Nat) : Bool :=
  (0x30 ≤ b && b ≤ 0x39) || b == 0x2B || b == 0x2D || b == 0x65 || b == 0x45

/-- The copy loop of `parse_number`: scan at most 63 permitted bytes from
`bytes`, translating `.` to the locale decimal point; returns the scratch
string and the count `i` of consumed bytes.  `budget` counts down from 63
while the absolute index grows, mirroring `i < 63 && can_access(i)`. -/
def numberScratch : List Nat → Nat → String × Nat
  | _, 0 => ("", 0)
  | [], _ + 1 => ("", 0)
  | b :: rest, budget + 1 =>
    if isNumByte b then
      let (s, n) := numberScratch rest budget
      (String.mk (Char.ofNat b :: s.data), n + 1)
    else if b == 0x2E then
      let (s, n) := numberScratch rest budget
      (String.mk (get_decimal_point :: s.data), n + 1)
    else ("", 0)

/-- Digit characters to a natural number (most significant first). -/
def digitsToNat (ds : List Char) : Nat :=
  ds.foldl (fun acc c => acc * 10 + (c.toNat - 0x30)) 0

/-- Model of `f64::from_str`, restricted to the characters `parse_number`
can feed it (digits, `+`, `-`, `e`, `E`, `.`).  The accepted grammar is
Rust's: `[+-]? (Digits ('.' Digits?)? | '.' Digits) ([eE] [+-]? Digits)?`,
with the whole string consumed.  The value is computed exactly as a
rational; the IEEE round-to-nearest step is not modelled (theorems
evaluate it only at exactly representable values). -/
def rustParseF64 (s : String) : Option ℚ :=
  let cs := s.data
  -- optional sign
  let (sgn, cs) : ℚ × List Char :=
    match cs with
    | '-' :: r => (-1, r)
    | '+' :: r => (1, r)
    | _ => (1, cs)
  let intDigits := cs.takeWhile Char.isDigit
  let cs := cs.dropWhile Char.isDigit
  let (fracDigits, cs) : List Char × List Char :=
    match cs with
    | '.' :: r => (r.takeWhile Char.isDigit, r.dropWhile Char.isDigit)
    | _ => ([], cs)
  -- significand needs at least one digit        (e.g. "-", "." are errors)
  if intDigits = [] ∧ fracDigits = [] then none
  else
    let mant : ℚ := sgn * ((digitsToNat intDigits : ℚ) +
      (digitsToNat fracDigits : ℚ) / ((10 : ℚ) ^ fracDigits.length))
    match cs with
    | [] => some mant
    | e :: r =>
      if e = 'e' ∨ e = 'E' then
        let (esgn, r) : Bool × List Char :=
          match r with
          | '-' :: r2 => (true, r2)
          | '+' :: r2 => (false, r2)
          | _ => (false, r)
        let eDigits := r.takeWhile Char.isDigit
        let r := r.dropWhile Char.isDigit
        if eDigits = [] ∨ r ≠ [] then none
        else
          let ex : ℚ := (10 : ℚ) ^ digitsToNat eDigits
          some (if esgn then mant / ex else mant * ex)
      else none

/-- Truncation toward zero of a rational, the rounding mode of Rust's
`as` cast from `f64` to `i32`. -/
def ratTrunc (q : ℚ) : Int :=
  if 0 ≤ q then ⌊q⌋ else ⌈q⌉

/-- Rust's saturating `as` cast from a (finite) `f64` to `i32`: truncate
toward zero, clamp to the i32 range. -/
def rustF64AsI32 (q : ℚ) : Int :=
  max (-2147483648) (min 2147483647 (ratTrunc q))

/-- The saturation arithmetic of `parse_number` as written in the source:
two explicit clamp branches, then the `as` cast. -/
def parseNumberValueint (q : ℚ) : Int :=
  if (2147483647 : ℚ) ≤ q then 2147483647
  else if q ≤ (-2147483648 : ℚ) then -2147483648
  else rustF64AsI32 q

/-- `parse_number`: scan the scratch string, parse it as a double, derive
the saturated integer cache, advance the buffer by the scanned length.
Returns `(valuedouble, valueint, buffer)` on success, or the untouched
buffer on failure. -/
def parse_number (pb : ParseBuffer) : Option (ℚ × Int) × ParseBuffer :=
  if pb.content = [] then (none, pb)
  else
    let (scratch, i) := numberScratch pb.buffer_at_offset 63
    match rustParseF64 scratch with
    | none => (none, pb)
    | some number =>
      (some (number, parseNumberValueint number), { pb with offset := pb.offset + i })

/-! ## String parsing -/

/-- `parse_hex4`: four hex digits to a number. -/
def parse_hex4 (input : List Nat) : Option Nat :=
  match input with
  | d0 :: d1 :: d2 :: d3 :: _ =>
    let dig : Nat → Option Nat := fun b =>
      if 0x30 ≤ b ∧ b ≤ 0x39 then some (b - 0x30)
      else if 0x41 ≤ b ∧ b ≤ 0x46 then some (b - 0x41 + 10)
      else if 0x61 ≤ b ∧ b ≤ 0x66 then some (b - 0x61 + 10)
      else none
    match dig d0, dig d1, dig d2, dig d3 with
    | some h0, some h1, some h2, some h3 =>
      some (((h0 * 16 + h1) * 16 + h2) * 16 + h3)
    | _, _, _, _ => none
  | _ => none

/-- `utf16_literal_to_utf8`: decode a `\uXXXX` escape (possibly a surrogate
pair) starting at `input_pointer` (which begins with the backslash),
appending UTF-8 bytes to `output`.  Returns the consumed escape length and
the new output.  Note the port's peculiar guard `input_end.len() < 6`:
`input_end` is the suffix starting at the string's closing quote, so the
escape is rejected whenever fewer than five bytes follow that quote. -/
def utf16_literal_to_utf8 (input_pointer input_end output : List Nat) :
    Option (Nat × List Nat) :=
  if input_pointer.length < 6 ∨ input_end.length < 6 then none
  else
    match parse_hex4 ((input_pointer.drop 2).take 4) with
    | none => none
    | some first_code =>
      if 0xDC00 ≤ first_code ∧ first_code ≤ 0xDFFF then none
      else
        let step : Option (Nat × Nat) :=   -- (codepoint, sequence_length)
          if 0xD800 ≤ first_code ∧ first_code ≤ 0xDBFF then
            if input_pointer.length < 12 ∨ (input_pointer.drop 6).take 2 ≠ [0x5C, 0x75] then
              none
            else
              match parse_hex4 ((input_pointer.drop 8).take 4) with
              | none => none
              | some second_code =>
                if ¬(0xDC00 ≤ second_code ∧ second_code ≤ 0xDFFF) then none
                else
                  some (0x10000 + (((first_code &&& 0x3FF) <<< 10) |||
                    (second_code &&& 0x3FF)), 12)
          else some (first_code, 6)
        match step with
        | none => none
        | some (codepoint, sequence_length) =>
          if codepoint < 0x80 then
            some (sequence_length, output ++ [codepoint])
          else if codepoint < 0x800 then
            some (sequence_length,
              output ++ [0xC0 ||| (codepoint >>> 6), 0x80 ||| (codepoint &&& 0x3F)])
          else if codepoint < 0x10000 then
            some (sequence_length,
              output ++ [0xE0 ||| (codepoint >>> 12), 0x80 ||| ((codepoint >>> 6) &&& 0x3F),
                0x80 ||| (codepoint &&& 0x3F)])
          else if codepoint ≤ 0x10FFFF then
            some (sequence_length,
              output ++ [0xF0 ||| (codepoint >>> 18), 0x80 ||| ((codepoint >>> 12) &&& 0x3F),
                0x80 ||| ((codepoint >>> 6) &&& 0x3F), 0x80 ||| (codepoint &&& 0x3F)])
          else none

/-- First scanning pass of `parse_string`: find the closing unescaped
quote, counting skipped backslashes.  Returns the suffix at which the scan
stopped (empty, or starting with the quote) and the skip count; `none`
models the early `return false` when a backslash is the last byte. -/
def scanToQuote : List Nat → Nat → Option (List Nat × Nat)
  | [], skipped => some ([], skipped)
  | b :: rest, skipped =>
    if b = 0x22 then some (b :: rest, skipped)
    else if b = 0x5C then
      match rest with
      | [] => none                    -- backslash is the last byte
      | _ :: r2 => scanToQuote r2 (skipped + 1)
    else scanToQuote rest skipped

/-- Rust slice `PartialOrd`: lexicographic comparison of byte slices.  The
port's copy loop uses this as its loop condition (`input_pointer <
input_end`), which in C was a pointer comparison. -/
def sliceLt : List Nat → List Nat → Bool
  | [], [] => false
  | [], _ :: _ => true
  | _ :: _, [] => false
  | a :: as_, b :: bs => if a < b then true else if b < a then false else sliceLt as_ bs

/-- Second pass of `parse_string`: copy bytes and resolve escapes while
`input_pointer < input_end` in the lexicographic slice order.  `fuel`
bounds iterations (each consumes at least one byte of `input_pointer`, so
any fuel above `input_pointer.length` is exact).  An empty `input_pointer`
with the loop condition still true would make the Rust code panic; the
model returns failure there (unreachable from `parse_string`). -/
def stringCopyLoop : Nat → List Nat → List Nat → List Nat → Option (List Nat)
  | 0, _, _, _ => none
  | fuel + 1, input_pointer, input_end, output =>
    if sliceLt input_pointer input_end then
      match input_pointer with
      | [] => none
      | b :: rest =>
        if b ≠ 0x5C then stringCopyLoop fuel rest input_end (output ++ [b])
        else
          match rest with
          | [] => none                -- escape at end of buffer
          | e :: r2 =>
            if e = 0x62 then stringCopyLoop fuel r2 input_end (output ++ [0x08])
            else if e = 0x66 then stringCopyLoop fuel r2 input_end (output ++ [0x0C])
            else if e = 0x6E then stringCopyLoop fuel r2 input_end (output ++ [0x0A])
            else if e = 0x72 then stringCopyLoop fuel r2 input_end (output ++ [0x0D])
            else if e = 0x74 then stringCopyLoop fuel r2 input_end (output ++ [0x09])
            else if e = 0x22 ∨ e = 0x5C ∨ e = 0x2F then
              stringCopyLoop fuel r2 input_end (output ++ [e])
            else if e = 0x75 then
              match utf16_literal_to_utf8 input_pointer input_end output with
              | some (sequence_length, out) =>
                stringCopyLoop fuel (input_pointer.drop sequence_length) input_end out
              | none => none
            else none
    else some output

/-- `parse_string`: returns the decoded string and the advanced buffer, or
the untouched buffer on failure.  The source computes `allocation_length =
input_end.len() - skipped_bytes`; when the skip count exceeds the length
of the closing-quote suffix this `usize` subtraction makes the program
abort (an underflow panic in debug builds; in release builds it wraps and
`Vec::with_capacity(usize::MAX)` aborts with a capacity overflow).  The
model maps that abort to a failed parse here, and `parse_string_panics`
below marks exactly the aborting buffers. -/
def parse_string (pb : ParseBuffer) : Option String × ParseBuffer :=
  if pb.buffer_at_offset.head? ≠ some 0x22 then (none, pb)
  else
    let input_pointer := pb.buffer_at_offset.drop 1
    match scanToQuote input_pointer 0 with
    | none => (none, pb)
    | some (input_end, skipped) =>
      if input_end = [] ∨ input_end.head? ≠ some 0x22 then (none, pb)
      else if input_end.length < skipped then (none, pb)
      else
        match stringCopyLoop (input_pointer.length + 1) input_pointer input_end [] with
        | none => (none, pb)
        | some output =>
          match utf8DecodeString output with
          | none => (none, pb)
          | some valuestring =>
            (some valuestring, { pb with offset := pb.offset + input_end.length + 1 })

/-- Marks the buffers on which `parse_string` reaches the aborting
`allocation_length` subtraction of `cJSON.rs:1155` with more skipped
backslashes than bytes in the closing-quote suffix: on these inputs the
program does not return at all (underflow panic in debug, capacity
overflow abort in release). -/
def parse_string_panics (pb : ParseBuffer) : Bool :=
  if pb.buffer_at_offset.head? ≠ some 0x22 then false
  else
    let input_pointer := pb.buffer_at_offset.drop 1
    match scanToQuote input_pointer 0 with
    | none => false
    | some (input_end, skipped) =>
      if input_end = [] ∨ input_end.head? ≠ some 0x22 then false
      else decide (input_end.length < skipped)

/-! ## Recursive descent (`parse_value`, `parse_array`, `parse_object`)

The mutual recursion is made structural on an explicit fuel argument;
every call decrements it.  Entry points pass fuel strictly larger than any
reachable call depth (each `value → container → item-loop → value` cycle
consumes at least one input byte, so `4 * content.length + 8` suffices for
every input). -/

def bytesNull : List Nat := [0x6E, 0x75, 0x6C, 0x6C]
def bytesFalse : List Nat := [0x66, 0x61, 0x6C, 0x73, 0x65]
def bytesTrue : List Nat := [0x74, 0x72, 0x75, 0x65]

/-- `slice.starts_with(prefix)`. -/
def listStartsWith : List Nat → List Nat → Bool
  | _, [] => true
  | [], _ :: _ => false
  | a :: as_, b :: bs => a == b && listStartsWith as_ bs

mutual

/-- `parse_value`: dispatch on the next byte.  Returns the parsed node and
the advanced buffer, or `none` with the buffer as the failing call left
it. -/
def parse_value : Nat → ParseBuffer → Option JNode × ParseBuffer
  | 0, pb => (none, pb)
  | fuel + 1, pb =>
    if pb.content = [] then (none, pb)
    else if pb.can_read 4 && listStartsWith pb.buffer_at_offset bytesNull then
      (some (.node CJSON_NULL none 0 0 none []), { pb with offset := pb.offset + 4 })
    else if pb.can_read 5 && listStartsWith pb.buffer_at_offset bytesFalse then
      (some (.node CJSON_FALSE none 0 0 none []), { pb with offset := pb.offset + 5 })
    else if pb.can_read 4 && listStartsWith pb.buffer_at_offset bytesTrue then
      (some (.node CJSON_TRUE none 1 0 none []), { pb with offset := pb.offset + 4 })
    else if pb.can_access_at_index 0 && pb.buffer_at_offset.headD 0 == 0x22 then
      match parse_string pb with
      | (some s, pb1) => (some (.node CJSON_STRING (some s) 0 0 none []), pb1)
      | (none, pb1) => (none, pb1)
    else if pb.can_access_at_index 0 &&
        (pb.buffer_at_offset.headD 0 == 0x2D ||
          (0x30 ≤ pb.buffer_at_offset.headD 0 && pb.buffer_at_offset.headD 0 ≤ 0x39)) then
      match parse_number pb with
      | (some (vd, vi), pb1) => (some (.node CJSON_NUMBER none vi vd none []), pb1)
      | (none, pb1) => (none, pb1)
    else if pb.can_access_at_index 0 && pb.buffer_at_offset.headD 0 == 0x5B then
      parse_array fuel pb
    else if pb.can_access_at_index 0 && pb.buffer_at_offset.headD 0 == 0x7B then
      parse_object fuel pb
    else (none, pb)

/-- `parse_array`.  Note two faithful quirks of the port: the empty-array
case returns without consuming the `]`, and the depth check precedes the
increment so failure at the ceiling leaves the buffer untouched. -/
def parse_array : Nat → ParseBuffer → Option JNode × ParseBuffer
  | 0, pb => (none, pb)
  | fuel + 1, pb =>
    if CJSON_NESTING_LIMIT ≤ pb.depth then (none, pb)
    else
      let pb := { pb with depth := pb.depth + 1 }
      if pb.buffer_at_offset.head? ≠ some 0x5B then (none, pb)
      else
        let pb := ParseBuffer.skip_whitespace { pb with offset := pb.offset + 1 }
        if pb.can_access_at_index 0 && pb.buffer_at_offset.headD 0 == 0x5D then
          (some (.node CJSON_ARRAY none 0 0 none []), { pb with depth := pb.depth - 1 })
        else
          let pb := { pb with offset := pb.offset - 1 }
          match parse_array_items fuel pb [] with
          | (none, pb1) => (none, pb1)
          | (some children, pb1) =>
            if pb1.cannot_access_at_index 0 || pb1.buffer_at_offset.headD 0 ≠ 0x5D then
              (none, pb1)
            else
              (some (.node CJSON_ARRAY none 0 0 none children),
                { pb1 with offset := pb1.offset + 1, depth := pb1.depth - 1 })

/-- The comma-separated element loop of `parse_array`. -/
def parse_array_items : Nat → ParseBuffer → List JNode → Option (List JNode) × ParseBuffer
  | 0, pb, _ => (none, pb)
  | fuel + 1, pb, acc =>
    let pb := ParseBuffer.skip_whitespace { pb with offset := pb.offset + 1 }
    match parse_value fuel pb with
    | (none, pb1) => (none, pb1)
    | (some v, pb1) =>
      let pb2 := ParseBuffer.skip_whitespace pb1
      if pb2.can_access_at_index 0 && pb2.buffer_at_offset.headD 0 == 0x2C then
        parse_array_items fuel pb2 (acc ++ [v])
      else (some (acc ++ [v]), pb2)

/-- `parse_object`.  Shares the quirks of `parse_array`; member keys are
parsed with `parse_string` and moved into the node's `string` field, with
no non-emptiness check. -/
def parse_object : Nat → ParseBuffer → Option JNode × ParseBuffer
  | 0, pb => (none, pb)
  | fuel + 1, pb =>
    if CJSON_NESTING_LIMIT ≤ pb.depth then (none, pb)
    else
      let pb := { pb with depth := pb.depth + 1 }
      if pb.cannot_access_at_index 0 || pb.buffer_at_offset.headD 0 ≠ 0x7B then (none, pb)
      else
        let pb := ParseBuffer.skip_whitespace { pb with offset := pb.offset + 1 }
        if pb.can_access_at_index 0 && pb.buffer_at_offset.headD 0 == 0x7D then
          (some (.node CJSON_OBJECT none 0 0 none []), { pb with depth := pb.depth - 1 })
        else
          let pb := { pb with offset := pb.offset - 1 }
          match parse_object_items fuel pb [] with
          | (none, pb1) => (none, pb1)
          | (some children, pb1) =>
            if pb1.cannot_access_at_index 0 || pb1.buffer_at_offset.headD 0 ≠ 0x7D then
              (none, pb1)
            else
              (some (.node CJSON_OBJECT none 0 0 none children),
                { pb1 with offset := pb1.offset + 1, depth := pb1.depth - 1 })

/-- The member loop of `parse_object`: name, `:`, value, `,`. -/
def parse_object_items : Nat → ParseBuffer → List JNode → Option (List JNode) × ParseBuffer
  | 0, pb, _ => (none, pb)
  | fuel + 1, pb, acc =>
    let pb := ParseBuffer.skip_whitespace { pb with offset := pb.offset + 1 }
    match parse_string pb with
    | (none, pb1) => (none, pb1)
    | (some key, pb1) =>
      let pb2 := ParseBuffer.skip_whitespace pb1
      if pb2.cannot_access_at_index 0 || pb2.buffer_at_offset.headD 0 ≠ 0x3A then
        (none, pb2)
      else
        let pb3 := ParseBuffer.skip_whitespace { pb2 with offset := pb2.offset + 1 }
        match parse_value fuel pb3 with
        | (none, pb4) => (none, pb4)
        | (some v, pb4) =>
          let pb5 := ParseBuffer.skip_whitespace pb4
          if pb5.can_access_at_index 0 && pb5.buffer_at_offset.headD 0 == 0x2C then
            parse_object_items fuel pb5 (acc ++ [v.withKey key])
          else (some (acc ++ [v.withKey key]), pb5)

end

/-- `skip_utf8_bom`: defined in the source but never called by any entry
point; modelled for completeness. -/
def skip_utf8_bom (pb : ParseBuffer) : Option ParseBuffer :=
  if pb.content = [] ∨ pb.offset ≠ 0 then none
  else if pb.can_access_at_index 3 &&
      listStartsWith pb.buffer_at_offset [0xEF, 0xBB, 0xBF] then
    some { pb with offset := pb.offset + 3 }
  else some pb

/-! ## Entry points and the global error slot -/

/-- The process-wide `GLOBAL_ERROR` slot (`struct Error`). -/
structure ErrSlot where
  json : Option (List Nat)
  position : Nat

/-- The cleared slot (`Error::default()` / the reset at entry). -/
def errCleared : ErrSlot := ⟨none, 0⟩

/-- `cjson_get_error_ptr`: the input suffix from the recorded position, if
any (and if it is valid UTF-8). -/
def cjson_get_error_ptr (e : ErrSlot) : Option String :=
  match e.json with
  | some json => if e.position < json.length then utf8DecodeString (json.drop e.position) else none
  | none => none

/-- `handle_parse_failure`: record the input and the clamped failure
offset into the error slot; also yields the value for `return_parse_end`. -/
def handle_parse_failure (value : String) (pb : ParseBuffer) : ErrSlot × Nat :=
  let position :=
    if pb.offset < pb.length then pb.offset
    else if 0 < pb.length then pb.length - 1
    else 0
  (⟨some (strBytes value), position⟩, position)

/-- Fuel passed by the entry points; strictly exceeds any reachable
recursion depth for the given content. -/
def entryFuel (content : List Nat) : Nat := 4 * content.length + 8

/-- `cjson_parse_with_length_opts`.  Returns the tree (or `none`), the
resulting global error slot, and the value written through
`return_parse_end` (when the caller passed a slot for it). -/
def cjson_parse_with_length_opts (value : String) (buffer_length : Nat)
    (require_null_terminated : Bool) (_st : ErrSlot) :
    Option JNode × ErrSlot × Option Nat :=
  let content := strBytes value
  let buffer : ParseBuffer := ⟨content, 0, 0, buffer_length⟩
  -- the global error is reset before the input validation
  if value = "" ∨ buffer_length = 0 then (none, errCleared, none)
  else
    let buffer := buffer.skip_whitespace
    match parse_value (entryFuel content) buffer with
    | (none, pb1) =>
      let (e, pe) := handle_parse_failure value pb1
      (none, e, some pe)
    | (some item, pb1) =>
      if require_null_terminated then
        let pb2 := pb1.skip_whitespace
        if pb2.length ≤ pb2.offset ∨ pb2.buffer_at_offset.head? ≠ some 0 then
          let (e, pe) := handle_parse_failure value pb2
          (none, e, some pe)
        else (some item, errCleared, some pb2.offset)
      else (some item, errCleared, some pb1.offset)

/-- `cjson_parse_with_length`. -/
def cjson_parse_with_length (value : String) (buffer_length : Nat) (st : ErrSlot) :
    Option JNode × ErrSlot :=
  let (r, e, _) := cjson_parse_with_length_opts value buffer_length false st
  (r, e)

/-- `cjson_parse_with_opts`: note the early return on an empty input,
which bypasses the error-slot reset of `cjson_parse_with_length_opts`. -/
def cjson_parse_with_opts (value : String) (require_null_terminated : Bool)
    (st : ErrSlot) : Option JNode × ErrSlot × Option Nat :=
  if value = "" then (none, st, none)
  else
    let buffer_length := (strBytes value).length + (if require_null_terminated then 1 else 0)
    cjson_parse_with_length_opts value buffer_length require_null_terminated st

/-- `cjson_parse`. -/
def cjson_parse (value : String) (st : ErrSlot) : Option JNode × ErrSlot :=
  let (r, e, _) := cjson_parse_with_opts value false st
  (r, e)

/-! ## Number formatting

Rust's `Display` for `f64` prints the shortest decimal string that rounds
back to the same double, without exponent notation.  On integral values
this is exactly the integer; that is the only case the theorems below
evaluate.  For non-integral rationals the model prints the exact decimal
expansion (up to 17 fractional digits), which can differ from the
shortest-roundtrip form; no theorem depends on that case. -/

def fracDigitsAux : Nat → Nat → Nat → List Char
  | 0, _, _ => []
  | fuel + 1, r, d =>
    if r = 0 then []
    else Char.ofNat (0x30 + r * 10 / d) :: fracDigitsAux fuel (r * 10 % d) d

/-- Model of `format!("{}", valuedouble)`. -/
def fmtF64 (q : ℚ) : String :=
  if q.den = 1 then toString q.num
  else
    let sign := if q < 0 then "-" else ""
    let p : ℚ := |q|
    sign ++ toString (p.num.toNat / p.den) ++ "." ++
      String.mk (fracDigitsAux 17 (p.num.toNat % p.den) p.den)

/-! ## Growable printer (`cjson_print`) -/

mutual

/-- `cjson_print`: the growable render.  Matches the node's full
`item_type` (so flagged nodes, and `CJSON_RAW`, fall to the `None` arm);
strings are quoted verbatim with no escaping; object members without a key
are skipped, and an object member whose value fails to render is silently
skipped as well (unlike array elements, whose failure fails the whole
render). -/
def cjson_print (item : JNode) : Option String :=
  match item with
  | .node t vs _ vd _ children =>
    if t = CJSON_NULL then some "null"
    else if t = CJSON_TRUE then some "true"
    else if t = CJSON_FALSE then some "false"
    else if t = CJSON_NUMBER then some (fmtF64 vd)
    else if t = CJSON_STRING then some ("\"" ++ vs.getD "" ++ "\"")
    else if t = CJSON_ARRAY then
      match printList children with
      | some body => some ("[" ++ body ++ "]")
      | none => none
    else if t = CJSON_OBJECT then
      some ("\x7b" ++ printMembers children true ++ "\x7d")
    else none

/-- The element loop of `cjson_print`'s array arm: a failing child fails
the render; `", "` is appended whenever another element follows. -/
def printList : List JNode → Option String
  | [] => some ""
  | c :: rest =>
    match cjson_print c with
    | none => none
    | some r =>
      match rest with
      | [] => some r
      | _ :: _ =>
        match printList rest with
        | none => none
        | some rs => some (r ++ ", " ++ rs)

/-- The member loop of `cjson_print`'s object arm: keyless members and
members whose value fails to render are skipped without failing. -/
def printMembers : List JNode → Bool → String
  | [], _ => ""
  | c :: rest, first =>
    match c.string with
    | none => printMembers rest first
    | some key =>
      match cjson_print c with
      | none => printMembers rest first
      | some r =>
        (if first then "" else ", ") ++ "\"" ++ key ++ "\": " ++ r ++
          printMembers rest false

end

/-! ## Preallocated printer (`print_value` and friends) -/

/-- `struct PrintBuffer`.  The Rust `buffer: &mut String` is the `buffer`
field; its backing capacity is not tracked, because `ensure_capacity`
always succeeds (growing the allocation) and the capacity never influences
control flow or contents after the entry check of
`cjson_print_preallocated` (which receives the caller buffer's capacity as
an explicit argument). -/
structure PrintBuffer where
  buffer : String
  length : Nat
  offset : Nat
  noalloc : Bool
  format : Bool

/-- `ensure_capacity`: reserves more backing storage when needed and
always returns `true` — the declared ceiling is never enforced. -/
def ensure_capacity (_output_buffer : PrintBuffer) (_required : Nat) : Bool := true

def PrintBuffer.push (pb : PrintBuffer) (s : String) : PrintBuffer :=
  { pb with buffer := pb.buffer ++ s }

/-- `char::is_control` (Unicode `Cc`). -/
def isRustControl (c : Char) : Bool :=
  c.toNat < 0x20 || (0x7F ≤ c.toNat && c.toNat ≤ 0x9F)

def hexDigitLower (d : Nat) : Char :=
  if d < 10 then Char.ofNat (0x30 + d) else Char.ofNat (0x61 + (d - 10))

/-- `format!("\\u{:04x}", c as u32)` for the control-character arm. -/
def hex4Lower (n : Nat) : List Char :=
  [hexDigitLower ((n >>> 12) &&& 0xF), hexDigitLower ((n >>> 8) &&& 0xF),
   hexDigitLower ((n >>> 4) &&& 0xF), hexDigitLower (n &&& 0xF)]

/-- Per-character escaping of `print_string_ptr`.  The `\b`/`\f` arms are
commented out in the source, so those characters take the control-escape
path. -/
def escapeChar (c : Char) : List Char :=
  if c = '"' then ['\\', '"']
  else if c = '\\' then ['\\', '\\']
  else if c = '\n' then ['\\', 'n']
  else if c = '\r' then ['\\', 'r']
  else if c = '\t' then ['\\', 't']
  else if isRustControl c then '\\' :: 'u' :: hex4Lower c.toNat
  else [c]

/-- `print_string_ptr`: quote and escape into the buffer. -/
def print_string_ptr (input : String) (output_buffer : PrintBuffer) :
    Bool × PrintBuffer :=
  let escaped := "\"" ++ String.mk (input.data.flatMap escapeChar) ++ "\""
  if ensure_capacity output_buffer (strBytes escaped).length then
    (true, output_buffer.push escaped)
  else (false, output_buffer)

mutual

/-- `print_value`: dispatch on `item_type & 0xFF`; no `CJSON_RAW` arm, so
raw nodes fail. -/
def print_value (item : JNode) (output_buffer : PrintBuffer) : Bool × PrintBuffer :=
  match item with
  | .node t vs _ vd _ children =>
    let tv := t &&& 0xFF
    if tv = CJSON_NULL then
      if ensure_capacity output_buffer 5 then (true, output_buffer.push "null")
      else (false, output_buffer)
    else if tv = CJSON_FALSE then
      if ensure_capacity output_buffer 6 then (true, output_buffer.push "false")
      else (false, output_buffer)
    else if tv = CJSON_TRUE then
      if ensure_capacity output_buffer 5 then (true, output_buffer.push "true")
      else (false, output_buffer)
    else if tv = CJSON_NUMBER then
      let formatted_number := fmtF64 vd
      if ensure_capacity output_buffer (strBytes formatted_number).length then
        (true, output_buffer.push formatted_number)
      else (false, output_buffer)
    else if tv = CJSON_STRING then
      match vs with
      | some valuestring =>
        if ensure_capacity output_buffer ((strBytes valuestring).length + 2) then
          (true, output_buffer.push ("\"" ++ valuestring ++ "\""))
        else (false, output_buffer)
      | none => (false, output_buffer)
    else if tv = CJSON_ARRAY then print_array children output_buffer
    else if tv = CJSON_OBJECT then print_object children output_buffer
    else (false, output_buffer)
termination_by (sizeOf item, 1)

/-- `print_array`.  The Rust function takes the item and immediately
re-borrows its child list, the only field it reads; the model passes that
list directly. -/
def print_array (child : List JNode) (output_buffer : PrintBuffer) : Bool × PrintBuffer :=
  if ensure_capacity output_buffer 1 then
    let pb := output_buffer.push "["
    match print_array_loop child true pb with
    | (false, pb1) => (false, pb1)
    | (true, pb1) =>
      if ensure_capacity pb1 1 then (true, pb1.push "]") else (false, pb1)
  else (false, output_buffer)
termination_by (sizeOf child, 1)

/-- The element loop of `print_array`. -/
def print_array_loop : List JNode → Bool → PrintBuffer → Bool × PrintBuffer
  | [], _, pb => (true, pb)
  | c :: rest, first, pb =>
    if ¬first ∧ ¬(ensure_capacity pb 2) then (false, pb)
    else
      let pb1 := if first then pb else pb.push ", "
      match print_value c pb1 with
      | (false, pb2) => (false, pb2)
      | (true, pb2) => print_array_loop rest false pb2
termination_by l _ _ => (sizeOf l, 0)

/-- `print_object`, receiving the item's child list as `print_array`
does. -/
def print_object (child : List JNode) (output_buffer : PrintBuffer) : Bool × PrintBuffer :=
  if ensure_capacity output_buffer 1 then
    let pb := output_buffer.push "\x7b"
    match print_object_loop child true pb with
    | (false, pb1) => (false, pb1)
    | (true, pb1) =>
      if ensure_capacity pb1 1 then (true, pb1.push "\x7d") else (false, pb1)
  else (false, output_buffer)
termination_by (sizeOf child, 1)

/-- The member loop of `print_object`: keys are escaped via
`print_string_ptr` (unlike `cjson_print`); keyless members are skipped; a
member value that fails to render fails the whole render. -/
def print_object_loop : List JNode → Bool → PrintBuffer → Bool × PrintBuffer
  | [], _, pb => (true, pb)
  | c :: rest, first, pb =>
    match c.string with
    | none => print_object_loop rest first pb
    | some key =>
      if ¬first ∧ ¬(ensure_capacity pb 2) then (false, pb)
      else
        let pb1 := if first then pb else pb.push ", "
        match print_string_ptr key pb1 with
        | (false, pb2) => (false, pb2)
        | (true, pb2) =>
          if ¬(ensure_capacity pb2 2) then (false, pb2)
          else
            let pb3 := pb2.push ": "
            match print_value c pb3 with
            | (false, pb4) => (false, pb4)
            | (true, pb4) => print_object_loop rest false pb4
termination_by l _ _ => (sizeOf l, 0)

end

/-- `cjson_print_preallocated`: fails up front when the declared length is
zero or the caller buffer's capacity is below it; otherwise renders with
`print_value`, whose capacity checks always succeed. -/
def cjson_print_preallocated (item : JNode) (buffer : String)
    (buffer_capacity : Nat) (length : Nat) (format : Bool) : Bool × String :=
  if length = 0 ∨ buffer_capacity < length then (false, buffer)
  else
    let p : PrintBuffer := ⟨buffer, length, 0, true, format⟩
    let (ok, p1) := print_value item p
    (ok, p1.buffer)

/-! ## Constructors (pure view) -/

def cjson_create_null : JNode := .node CJSON_NULL none 0 0 none []
def cjson_create_true : JNode := .node CJSON_TRUE none 0 0 none []
def cjson_create_false : JNode := .node CJSON_FALSE none 0 0 none []

def cjson_create_bool (b : Bool) : JNode :=
  .node (if b then CJSON_TRUE else CJSON_FALSE) none 0 0 none []

/-- `cjson_create_number`: caches `num as i32` (Rust's saturating cast). -/
def cjson_create_number (num : ℚ) : JNode :=
  .node CJSON_NUMBER none (rustF64AsI32 num) num none []

def cjson_create_string (s : String) : JNode :=
  .node CJSON_STRING (some s) 0 0 none []

def cjson_create_raw (raw : String) : JNode :=
  .node CJSON_RAW (some raw) 0 0 none []

def cjson_create_array : JNode := .node CJSON_ARRAY none 0 0 none []
def cjson_create_object : JNode := .node CJSON_OBJECT none 0 0 none []

/-! ## Arena model of the mutation API

The mutation API works on `Rc<RefCell<CJSON>>` nodes linked by
`next`/`prev`/`child` pointers; the first→last back-edge lives in `prev`.
Nodes are modelled as an arena addressed by `Nat` ids; `Rc::ptr_eq`
becomes id equality, and `Rc::clone`/`borrow_mut` become reads and
pointwise updates of the arena. -/

/-- `struct CJSON` with its raw links. -/
structure RNode where
  next : Option Nat
  prev : Option Nat
  child : Option Nat
  item_type : Nat
  valuestring : Option String
  valueint : Int
  valuedouble : ℚ
  string : Option String
  deriving DecidableEq

/-- A fresh node as `cJSON_New_Item` makes it. -/
def RNode.newItem : RNode := ⟨none, none, none, CJSON_NULL, none, 0, 0, none⟩

abbrev Heap := Nat → RNode

/-- Pointwise update of one node. -/
def upd (σ : Heap) (i : Nat) (f : RNode → RNode) : Heap :=
  fun j => if j = i then f (σ j) else σ j

/-- `add_item_to_array`: fails on self-insertion or a non-array target;
appends using the first child's `prev` back-edge and re-establishes it.
If the first child's `prev` is `None` the `if let` silently does nothing
(still returning `true`). -/
def add_item_to_array (σ : Heap) (array item : Nat) : Bool × Heap :=
  if array = item ∨ (σ array).item_type ≠ CJSON_ARRAY then (false, σ)
  else
    match (σ array).child with
    | none =>
      let σ1 := upd σ array (fun n => { n with child := some item })
      let σ2 := upd σ1 item (fun n => { n with prev := some item })
      (true, upd σ2 item (fun n => { n with next := none }))
    | some c =>
      match (σ c).prev with
      | some last_item =>
        let σ1 := upd σ last_item (fun n => { n with next := some item })
        let σ2 := upd σ1 item (fun n => { n with prev := some last_item })
        (true, upd σ2 c (fun n => { n with prev := some item }))
      | none => (true, σ)

/-- The tail-finding loop of `add_item_to_object` (which, unlike
`add_item_to_array`, walks `next` to the end instead of using the
back-edge).  `fuel` bounds the walk; any fuel at least the chain length is
exact, matching the Rust loop on acyclic chains. -/
def object_find_last (σ : Heap) : Nat → Nat → Nat
  | start, 0 => start
  | start, fuel + 1 =>
    match (σ start).next with
    | none => start
    | some nx => object_find_last σ nx fuel

/-- The key-and-constness update `add_item_to_object` applies to the item
before linking it: store the key and set or clear `CJSON_STRING_IS_CONST`.
(`item_type` is kept below `2^32`, so the u32 `& !CJSON_STRING_IS_CONST`
is `&&& 0xFFFFFDFF`.  The source's conditional `string = None` is
immediately overwritten by `string = Some(new_key)`.) -/
def objKeyUpd (key : String) (constant_key : Bool) (n : RNode) : RNode :=
  let new_type :=
    if constant_key then n.item_type ||| CJSON_STRING_IS_CONST
    else n.item_type &&& 0xFFFFFDFF
  { n with string := some key, item_type := new_type }

/-- `add_item_to_object`: fails on self-insertion, an empty key or a
non-object target; stores the key and the constness flag on the item, then
appends at the tail found by walking `next` — without touching the first
child's `prev` back-edge. -/
def add_item_to_object (σ : Heap) (object : Nat) (key : String) (item : Nat)
    (constant_key : Bool) (fuel : Nat) : Bool × Heap :=
  if object = item ∨ key = "" ∨ (σ object).item_type ≠ CJSON_OBJECT then (false, σ)
  else
    let σa := upd σ item (objKeyUpd key constant_key)
    match (σa object).child with
    | none => (true, upd σa object (fun n => { n with child := some item }))
    | some c =>
      let last := object_find_last σa c fuel
      let σ1 := upd σa last (fun n => { n with next := some item })
      (true, upd σ1 item (fun n => { n with prev := some last }))

/-- `ids` lists exactly the sibling chain starting at `start` and followed
through `next`, ending at a node whose `next` is `None`. -/
def isChain (σ : Heap) : Option Nat → List Nat → Bool
  | none, [] => true
  | none, _ :: _ => false
  | some _, [] => false
  | some c, x :: xs => x == c && isChain σ (σ c).next xs

/-- The back-edge convention on a container's child chain: the first
child's `prev` designates the last child (vacuous for an empty chain). -/
def backEdgeOK (σ : Heap) (ids : List Nat) : Prop :=
  match ids with
  | [] => True
  | h :: _ => (σ h).prev = ids.getLast?

/-! ## The specification-side saturation function (claim C9)

Stated from the claim's own words, to be compared with the code's
`valueint` computations. -/

/-- Saturate to the signed 32-bit range: at or above `INT32_MAX` clamp to
`INT32_MAX`, at or below `INT32_MIN` clamp to `INT32_MIN`, strictly inside
truncate toward zero. -/
def spec_saturated_i32 (q : ℚ) : Int :=
  if (2147483647 : ℚ) ≤ q then 2147483647
  else if q ≤ (-2147483648 : ℚ) then -2147483648
  else ratTrunc q

/-! ## Small definitions used by the theorems -/

/-- Canonical empty print buffer, a proof device for the frame lemma. -/
def pbBase : PrintBuffer := ⟨"", 0, 0, true, false⟩

/-- The perfectly nested array tree: `nestedArr 0` is `[]`, `nestedArr
(k+1)` is an array whose sole element is `nestedArr k`. -/
def nestedArr : Nat → JNode
  | 0 => .node CJSON_ARRAY none 0 0 none []
  | k + 1 => .node CJSON_ARRAY none 0 0 none [nestedArr k]

/-- `n` opening brackets. -/
def openBrackets (n : Nat) : String := String.mk (List.replicate n '[')

/-- `n` opening brackets followed by `n` closing brackets. -/
def nestedBrackets (n : Nat) : String :=
  String.mk (List.replicate n '[' ++ List.replicate n ']')

/-- A concrete heap for claim C7: node 0 is an object whose only child is
node 1, whose `prev` back-edge designates itself (it is both first and
last child); node 2 is a fresh item. -/
def c7heap : Heap := fun i =>
  if i = 0 then { RNode.newItem with item_type := CJSON_OBJECT, child := some 1 }
  else if i = 1 then { RNode.newItem with prev := some 1 }
  else RNode.newItem

/-- The same shape with an array container instead of an object. -/
def c7heapA : Heap := fun i =>
  if i = 0 then { RNode.newItem with item_type := CJSON_ARRAY, child := some 1 }
  else if i = 1 then { RNode.newItem with prev := some 1 }
  else RNode.newItem

/-! # Theorems -/

/-! ## Frame properties of the preallocated printer

`ensure_capacity` always succeeds, so the preallocated renderer's outcome
depends only on the tree: on any starting buffer it returns the same flag
and appends the same text, regardless of the declared capacity and of
every other `PrintBuffer` field. -/

theorem print_string_ptr_frame (s : String) (pb : PrintBuffer) :
    print_string_ptr s pb =
      ((print_string_ptr s pbBase).1,
        { pb with buffer := pb.buffer ++ (print_string_ptr s pbBase).2.buffer }) := by
  simp [print_string_ptr, ensure_capacity, PrintBuffer.push, pbBase]

theorem print_frame_all : ∀ n : Nat,
    (∀ item : JNode, sizeOf item ≤ n → ∀ pb : PrintBuffer,
      print_value item pb =
        ((print_value item pbBase).1,
          { pb with buffer := pb.buffer ++ (print_value item pbBase).2.buffer })) ∧
    (∀ l : List JNode, sizeOf l ≤ n → ∀ (first : Bool) (pb : PrintBuffer),
      (print_array_loop l first pb =
        ((print_array_loop l first pbBase).1,
          { pb with buffer := pb.buffer ++ (print_array_loop l first pbBase).2.buffer })) ∧
      (print_object_loop l first pb =
        ((print_object_loop l first pbBase).1,
          { pb with buffer := pb.buffer ++ (print_object_loop l first pbBase).2.buffer }))) := by
  intro n
  induction n using Nat.strong_induction_on with
  | _ n IH =>
    constructor
    · intro item hsz pb
      obtain ⟨t, vs, vi, vd, s, child⟩ := item
      have hchild : sizeOf child < n := by
        have h1 : sizeOf child < sizeOf (JNode.node t vs vi vd s child) := by
          simp
        omega
      have hl := (IH (sizeOf child) hchild).2 child le_rfl
      rcases hA : print_array_loop child true pbBase with ⟨ba, pbA⟩
      have ha2 : ∀ p : PrintBuffer, print_array_loop child true p =
          (ba, { p with buffer := p.buffer ++ pbA.buffer }) := by
        intro p
        rw [(hl true p).1, hA]
      rcases hO : print_object_loop child true pbBase with ⟨bo, pbO⟩
      have ho2 : ∀ p : PrintBuffer, print_object_loop child true p =
          (bo, { p with buffer := p.buffer ++ pbO.buffer }) := by
        intro p
        rw [(hl true p).2, hO]
      simp only [print_value.eq_def, ensure_capacity, eq_self_iff_true, if_true]
      split_ifs with h1 h2 h3 h4 h5 h6 h7
      · simp [PrintBuffer.push, pbBase]
      · simp [PrintBuffer.push, pbBase]
      · simp [PrintBuffer.push, pbBase]
      · simp [PrintBuffer.push, pbBase]
      · cases vs with
        | some v => simp [PrintBuffer.push, pbBase]
        | none => simp [pbBase]
      · cases ba <;>
          simp [print_array, ensure_capacity, ha2, PrintBuffer.push, pbBase,
            String.append_assoc]
      · cases bo <;>
          simp [print_object, ensure_capacity, ho2, PrintBuffer.push, pbBase,
            String.append_assoc]
      · simp [pbBase]
    · intro l hsz first pb
      cases l with
      | nil =>
        constructor <;> simp [print_array_loop, print_object_loop, pbBase]
      | cons c rest =>
        have hc : sizeOf c < n := by
          have h1 : sizeOf c < sizeOf (c :: rest) := by
            simp
            omega
          omega
        have hrest : sizeOf rest < n := by
          have h1 : sizeOf rest < sizeOf (c :: rest) := by simp
          omega
        have hv := (IH (sizeOf c) hc).1 c le_rfl
        have hr := (IH (sizeOf rest) hrest).2 rest le_rfl
        rcases hV : print_value c pbBase with ⟨bv, pbV⟩
        have hv2 : ∀ p : PrintBuffer, print_value c p =
            (bv, { p with buffer := p.buffer ++ pbV.buffer }) := by
          intro p
          rw [hv p, hV]
        constructor
        · rcases hR : print_array_loop rest false pbBase with ⟨br, pbR⟩
          have hr2 : ∀ p : PrintBuffer, print_array_loop rest false p =
              (br, { p with buffer := p.buffer ++ pbR.buffer }) := by
            intro p
            rw [(hr false p).1, hR]
          cases first <;> cases bv <;>
            simp [print_array_loop.eq_2, ensure_capacity, hv2, hr2, PrintBuffer.push,
              pbBase, String.append_assoc]
        · rcases hS : print_string_ptr (c.string.getD "") pbBase with ⟨bs, pbS⟩
          have hs2 : ∀ p : PrintBuffer, print_string_ptr (c.string.getD "") p =
              (bs, { p with buffer := p.buffer ++ pbS.buffer }) := by
            intro p
            rw [print_string_ptr_frame, hS]
          cases hk : c.string with
          | none =>
            rcases hR : print_object_loop rest first pbBase with ⟨br, pbR⟩
            have hr2 : ∀ p : PrintBuffer, print_object_loop rest first p =
                (br, { p with buffer := p.buffer ++ pbR.buffer }) := by
              intro p
              rw [(hr first p).2, hR]
            simp [print_object_loop.eq_2, hk, hr2, pbBase]
          | some key =>
            rw [hk] at hs2
            simp only [Option.getD_some] at hs2
            rcases hR : print_object_loop rest false pbBase with ⟨br, pbR⟩
            have hr2 : ∀ p : PrintBuffer, print_object_loop rest false p =
                (br, { p with buffer := p.buffer ++ pbR.buffer }) := by
              intro p
              rw [(hr false p).2, hR]
            cases first <;> cases bs <;> cases bv <;>
              simp [print_object_loop.eq_2, hk, ensure_capacity, hs2, hv2, hr2,
                PrintBuffer.push, pbBase, String.append_assoc]

/-! ## Claim C1 — the preallocated capacity contract -/

/-- C1 counterexample: the null tree renders to exactly `"null"` (length
4), yet `cjson_print_preallocated` with declared capacity 3 = N−1 (and a
buffer of capacity 3) returns `true` and fills the buffer past the
declared capacity, where the claim requires it to return `false`. -/
theorem c1_capacity_counterexample :
    cjson_print cjson_create_null = some "null" ∧
    (strBytes "null").length = 4 ∧
    cjson_print_preallocated cjson_create_null "" 3 3 false = (true, "null") := by
  refine ⟨rfl, rfl, ?_⟩
  simp [cjson_print_preallocated, print_value.eq_def, ensure_capacity,
    cjson_create_null, CJSON_NULL, PrintBuffer.push,
    (by decide : (4 : Nat) &&& 255 = 4)]

/-- C1 (amended): `ensure_capacity` always succeeds (it grows the backing
storage instead of enforcing the ceiling), so whenever the declared length
is nonzero and the caller buffer's capacity is at least the declared
length, `cjson_print_preallocated` returns the recursive renderer's
success flag and appends the full rendering to the buffer — regardless of
whether the rendered length exceeds the declared capacity. -/
theorem c1_preallocated_amended :
    (∀ (pb : PrintBuffer) (r : Nat), ensure_capacity pb r = true) ∧
    (∀ (item : JNode) (buffer : String) (cap len : Nat) (fmt : Bool),
      len ≠ 0 → len ≤ cap →
      cjson_print_preallocated item buffer cap len fmt =
        ((print_value item pbBase).1,
          buffer ++ (print_value item pbBase).2.buffer)) := by
  constructor
  · intro pb r
    rfl
  · intro item buffer cap len fmt h1 h2
    have hf := (print_frame_all (sizeOf item)).1 item le_rfl ⟨buffer, len, 0, true, fmt⟩
    simp only [cjson_print_preallocated, h1, Nat.not_lt.mpr h2, or_self, if_false,
      false_or, or_false]
    rw [hf]

/-- C1 witness for the amended theorem, at the null tree with declared
length 1. -/
theorem c1_preallocated_amended_witness :
    cjson_print_preallocated cjson_create_null "" 1 1 false =
      ((print_value cjson_create_null pbBase).1,
        "" ++ (print_value cjson_create_null pbBase).2.buffer) :=
  c1_preallocated_amended.2 cjson_create_null "" 1 1 false (by decide) (by decide)

/-! ## Claim C2 — parse ∘ print round trip -/

/-- C2: the round trip fails on the code.  The tree `String "ab"` (built
by the string constructor) prints to `"ab"` with quotes, but parsing that
very text yields the empty-string node: the copy loop of `parse_string`
compares byte slices lexicographically instead of positionally, so the
characters are dropped. -/
theorem c2_roundtrip_failure :
    cjson_print (cjson_create_string "ab") = some "\"ab\"" ∧
    (cjson_parse "\"ab\"" errCleared).1 = some (cjson_create_string "") ∧
    cjson_create_string "" ≠ cjson_create_string "ab" := by
  refine ⟨rfl, rfl, ?_⟩
  intro h
  simp [cjson_create_string] at h

/-! ## Claim C3 — the declared length bounds parsing -/

/-- C3: the declared length is ignored by the parser's access checks
(they test `content.len()`), so `parse_with_length("null", 1)` reads all
four bytes and succeeds, while parsing the declared one-byte prefix `"n"`
on its own fails. -/
theorem c3_length_ignored :
    (cjson_parse_with_length "null" 1 errCleared).1 =
      some (.node CJSON_NULL none 0 0 none []) ∧
    (cjson_parse_with_length "n" 1 errCleared).1 = none :=
  ⟨rfl, rfl⟩

/-! ## Claim C4 — `\uXXXX` escapes and surrogate pairs -/

/-- C4: all three claimed behaviours fail on the code.  On the surrogate
pair the program aborts instead of decoding the 4-byte scalar: the scan
pass counts two skipped backslashes while the closing-quote suffix has
one byte, so the allocation length `input_end.len() - skipped_bytes`
underflows (`parse_string_panics` holds on the entry buffer the parser
hands to `parse_string`).  A lone low surrogate does not fail (the parse
succeeds with an empty string — the escape machinery is unreachable
because the copy loop's slice comparison is lexicographic); a high
surrogate with no following low surrogate does not fail either. -/
theorem c4_surrogate_handling_broken :
    parse_string_panics ⟨strBytes "\"\\uD83D\\uDE00\"", 0, 0,
      (strBytes "\"\\uD83D\\uDE00\"").length⟩ = true ∧
    (cjson_parse "\"\\uDE00\"" errCleared).1 = some (cjson_create_string "") ∧
    (cjson_parse "\"\\uD83Dxx\"" errCleared).1 = some (cjson_create_string "") :=
  ⟨rfl, rfl, rfl⟩

/-! ## Claim C6 — UTF-8 BOM skipping -/

/-- C6: `skip_utf8_bom` exists but is never called by the entry points,
so an input with a leading BOM fails to parse while the BOM-less input
succeeds. -/
theorem c6_bom_not_skipped :
    (cjson_parse ("\uFEFF" ++ "true") errCleared).1 = none ∧
    (cjson_parse "true" errCleared).1 = some (.node CJSON_TRUE none 1 0 none []) :=
  ⟨rfl, rfl⟩

/-! ## Claim C8 — printing Raw nodes -/

/-- C8 counterexample: a Raw node with payload `"true"` does not render
its payload verbatim — `cjson_print` fails on it. -/
theorem c8_raw_print_counterexample :
    cjson_print (cjson_create_raw "true") = none := rfl

/-- C8 (amended): `cjson_print` has no `CJSON_RAW` arm and fails on every
Raw node, and the preallocated renderer `print_value` rejects them too. -/
theorem c8_raw_print_amended :
    ∀ s : String, cjson_print (cjson_create_raw s) = none ∧
      ∀ pb : PrintBuffer, (print_value (cjson_create_raw s) pb).1 = false := by
  intro s
  constructor
  · rfl
  · intro pb
    simp [print_value.eq_def, cjson_create_raw, CJSON_RAW, CJSON_NULL, CJSON_FALSE,
      CJSON_TRUE, CJSON_NUMBER, CJSON_STRING, CJSON_ARRAY, CJSON_OBJECT,
      (by decide : (128 : Nat) &&& 255 = 128)]

/-! ## Claim C9 — the saturated 32-bit integer cache -/

theorem rustF64AsI32_eq_spec (q : ℚ) : rustF64AsI32 q = spec_saturated_i32 q := by
  unfold rustF64AsI32 spec_saturated_i32 ratTrunc
  by_cases h1 : (2147483647 : ℚ) ≤ q
  · have h0 : (0 : ℚ) ≤ q := le_trans (by norm_num) h1
    have hf : (2147483647 : Int) ≤ ⌊q⌋ := by
      rw [Int.le_floor]
      exact_mod_cast h1
    simp only [h0, h1, if_true]
    omega
  · by_cases h2 : q ≤ (-2147483648 : ℚ)
    · have hq0 : q < 0 := lt_of_le_of_lt h2 (by norm_num)
      have h0 : ¬ (0 : ℚ) ≤ q := not_le.mpr hq0
      have hc : ⌈q⌉ ≤ -2147483648 := by
        rw [Int.ceil_le]
        exact_mod_cast h2
      simp only [h0, h1, h2, if_true, if_false]
      omega
    · push_neg at h1 h2
      by_cases h0 : (0 : ℚ) ≤ q
      · have hfl : ⌊q⌋ < 2147483647 := by
          rw [Int.floor_lt]
          exact_mod_cast h1
        have hfg : (0 : Int) ≤ ⌊q⌋ := Int.floor_nonneg.mpr h0
        simp only [h0, not_le.mpr h1, not_le.mpr h2, if_true, if_false]
        omega
      · have hcl : ⌈q⌉ ≤ 0 := by
          rw [Int.ceil_le]
          exact_mod_cast le_of_not_le h0
        have hcg : (-2147483648 : Int) < ⌈q⌉ := by
          rw [Int.lt_ceil]
          exact_mod_cast h2
        simp only [h0, not_le.mpr h1, not_le.mpr h2, if_true, if_false]
        omega

theorem parseNumberValueint_eq_spec (q : ℚ) :
    parseNumberValueint q = spec_saturated_i32 q := by
  unfold parseNumberValueint
  split_ifs with h1 h2
  · unfold spec_saturated_i32
    rw [if_pos h1]
  · unfold spec_saturated_i32
    rw [if_neg h1, if_pos h2]
  · exact rustF64AsI32_eq_spec q

/-- C9: both the number constructor and the parser cache the node's
double saturated to the signed 32-bit range — at or above `INT32_MAX` the
cache is exactly `INT32_MAX`, at or below `INT32_MIN` exactly
`INT32_MIN`, and strictly inside the range it is the truncation toward
zero.  (Doubles are modelled as exact rationals; the property is
order-theoretic and matches IEEE comparisons on all finite doubles, and
the claim's three cases do not cover NaN.) -/
theorem c9_valueint_saturation :
    (∀ q : ℚ, (cjson_create_number q).valueint =
        spec_saturated_i32 ((cjson_create_number q).valuedouble)) ∧
    (∀ (pb pb2 : ParseBuffer) (vd : ℚ) (vi : Int),
        parse_number pb = (some (vd, vi), pb2) → vi = spec_saturated_i32 vd) := by
  constructor
  · intro q
    simp only [cjson_create_number, JNode.valueint, JNode.valuedouble]
    exact rustF64AsI32_eq_spec q
  · intro pb pb2 vd vi h
    unfold parse_number at h
    split_ifs at h with hc
    · exact absurd h (by simp)
    · rcases hn : numberScratch pb.buffer_at_offset 63 with ⟨scratch, i⟩
      rcases hp : rustParseF64 scratch with - | number
      · simp only [hn, hp] at h
        exact absurd h (by simp)
      · simp only [hn, hp, Prod.mk.injEq, Option.some.injEq] at h
        obtain ⟨⟨h3, h4⟩, -⟩ := h
        subst h3
        rw [← h4]
        exact parseNumberValueint_eq_spec number

/-- Evaluation of `parse_number` on the one-byte input `5`. -/
theorem parse_number_five :
    parse_number ⟨strBytes "5", 0, 0, 1⟩ = (some (5, 5), ⟨strBytes "5", 1, 0, 1⟩) := by
  have h2 : rustParseF64 "5" = some 5 := by
    simp +decide [rustParseF64, digitsToNat]
  show (match rustParseF64 "5" with
    | none => ((none : Option (ℚ × Int)), (⟨strBytes "5", 0, 0, 1⟩ : ParseBuffer))
    | some number => (some (number, parseNumberValueint number),
        (⟨strBytes "5", 1, 0, 1⟩ : ParseBuffer))) =
    (some (5, 5), (⟨strBytes "5", 1, 0, 1⟩ : ParseBuffer))
  rw [h2]
  rfl

/-- C9 witness: the parser side applied to the one-byte input `5`. -/
theorem c9_valueint_saturation_witness :
    (5 : Int) = spec_saturated_i32 5 :=
  c9_valueint_saturation.2 ⟨strBytes "5", 0, 0, 1⟩ ⟨strBytes "5", 1, 0, 1⟩ 5 5
    parse_number_five

/-! ## Claim C10 — the last-error slot discipline -/

/-- C10 counterexample: `cjson_parse ""` returns before the error-slot
reset of `cjson_parse_with_length_opts` is reached, so a stale remainder
from an earlier failure survives a parse call — the claim that every
parse entry point first clears the slot is false. -/
theorem c10_error_slot_counterexample :
    (cjson_parse "" ⟨some [120], 0⟩).1 = none ∧
    (cjson_parse "" ⟨some [120], 0⟩).2 = ⟨some [120], 0⟩ ∧
    cjson_get_error_ptr ((cjson_parse "" ⟨some [120], 0⟩).2) = some "x" :=
  ⟨rfl, rfl, rfl⟩

/-- C10 (amended): `cjson_parse_with_length_opts` (and hence every entry
point that reaches it — `parse` and `parse_with_opts` forward every
nonempty input) ignores the prior slot state, clearing it before parsing;
after any parse call that returns a tree the slot is clear, so
`get_error_ptr` can return a remainder only after a failed call. -/
theorem wlo_state_independent (v : String) (len : Nat) (rn : Bool) (s t : ErrSlot) :
    cjson_parse_with_length_opts v len rn s = cjson_parse_with_length_opts v len rn t :=
  rfl

theorem c10_error_slot_amended :
    (∀ (v : String) (len : Nat) (rn : Bool) (s t : ErrSlot),
      cjson_parse_with_length_opts v len rn s = cjson_parse_with_length_opts v len rn t) ∧
    (∀ (v : String) (s t : ErrSlot), v ≠ "" → cjson_parse v s = cjson_parse v t) ∧
    (∀ (v : String) (len : Nat) (rn : Bool) (s : ErrSlot) (r : Option JNode)
        (e : ErrSlot) (pe : Option Nat),
      cjson_parse_with_length_opts v len rn s = (r, e, pe) → r ≠ none →
      cjson_get_error_ptr e = none) := by
  refine ⟨fun v len rn s t => wlo_state_independent v len rn s t, fun v s t hv => ?_, ?_⟩
  · unfold cjson_parse cjson_parse_with_opts
    rw [if_neg hv, if_neg hv]
    rfl
  · intro v len rn s r e pe h hr
    simp only [cjson_parse_with_length_opts] at h
    by_cases hcond : v = "" ∨ len = 0
    · rw [if_pos hcond] at h
      simp only [Prod.mk.injEq] at h
      exact absurd h.1.symm hr
    · rw [if_neg hcond] at h
      split at h
      · simp only [handle_parse_failure, Prod.mk.injEq] at h
        exact absurd h.1.symm hr
      · split_ifs at h with hrn hnt
        · simp only [handle_parse_failure, Prod.mk.injEq] at h
          exact absurd h.1.symm hr
        · simp only [Prod.mk.injEq] at h
          rw [← h.2.1]
          rfl
        · simp only [Prod.mk.injEq] at h
          rw [← h.2.1]
          rfl

/-- C10 witness for the amended theorem: state-independence and a clean
slot after a successful parse, at the input `true`. -/
theorem c10_error_slot_amended_witness :
    cjson_parse "true" ⟨some [120], 0⟩ = cjson_parse "true" errCleared ∧
    cjson_get_error_ptr errCleared = none :=
  ⟨c10_error_slot_amended.2.1 "true" ⟨some [120], 0⟩ errCleared (by decide),
   c10_error_slot_amended.2.2 "true" 4 false errCleared
     (some (.node CJSON_TRUE none 1 0 none [])) errCleared (some 4) rfl
     (by simp)⟩


theorem getD_eq_headD_drop (l : List Nat) (i : Nat) : l.getD i 0 = (l.drop i).headD 0 := by
  induction l generalizing i with
  | nil => cases i <;> rfl
  | cons x xs ih =>
    cases i with
    | zero => rfl
    | succ j => exact ih j

theorem skip_whitespace_id (pb : ParseBuffer)
    (h : ParseBuffer.isAsciiWs (pb.content.getD pb.offset 0) = false) :
    ParseBuffer.skip_whitespace pb = pb := by
  unfold ParseBuffer.skip_whitespace
  cases hf : pb.length - pb.offset with
  | zero => rfl
  | succ k =>
    simp only [ParseBuffer.skip_whitespace_aux, h, Bool.false_eq_true, and_false, if_false]

theorem parse_value_brackets_step (f : Nat) (pb : ParseBuffer)
    (h91 : ∀ b ∈ pb.content, b = 91)
    (harr : (parse_array f pb).1 = none) :
    (parse_value (f + 1) pb).1 = none := by
  rcases hd : pb.content.drop pb.offset with - | ⟨bb, rest⟩
  · by_cases hcnil : pb.content = []
    · simp [parse_value, hcnil]
    · have hoff : pb.content.length ≤ pb.offset := by
        have := congrArg List.length hd
        simp only [List.length_drop, List.length_nil] at this
        omega
      have hca : ¬ (pb.offset + 0 < pb.content.length) := by omega
      have hcr4 : ¬ (pb.offset + 4 ≤ pb.content.length) := by omega
      have hcr5 : ¬ (pb.offset + 5 ≤ pb.content.length) := by omega
      simp [parse_value, hcnil, ParseBuffer.can_read, ParseBuffer.can_access_at_index,
        ParseBuffer.buffer_at_offset, hd, hca, hcr4, hcr5, listStartsWith]
  · have hbb : bb = 91 :=
      h91 bb (List.drop_subset _ _ (hd ▸ List.mem_cons_self bb rest))
    subst hbb
    have hcnil : ¬ (pb.content = []) := by
      intro h0
      rw [h0] at hd
      simp at hd
    have hlt : pb.offset < pb.content.length := by
      by_contra hle
      rw [List.drop_eq_nil_of_le (by omega)] at hd
      simp at hd
    rcases hres : parse_array f pb with ⟨ro, pbr⟩
    rw [hres] at harr
    simp only at harr
    subst harr
    simp [parse_value, hcnil, ParseBuffer.can_read, ParseBuffer.can_access_at_index,
      ParseBuffer.buffer_at_offset, hd, hlt, listStartsWith, bytesNull, bytesFalse,
      bytesTrue, hres]

theorem parse_array_items_brackets_step (f : Nat) (pb : ParseBuffer) (acc : List JNode)
    (hws : ∀ i, ParseBuffer.isAsciiWs (pb.content.getD i 0) = false)
    (hval : (parse_value f ⟨pb.content, pb.offset + 1, pb.depth, pb.length⟩).1 = none) :
    (parse_array_items (f + 1) pb acc).1 = none := by
  have hskip := skip_whitespace_id
    ⟨pb.content, pb.offset + 1, pb.depth, pb.length⟩ (hws (pb.offset + 1))
  rcases hres : parse_value f ⟨pb.content, pb.offset + 1, pb.depth, pb.length⟩ with ⟨ro, pbr⟩
  rw [hres] at hval
  simp only at hval
  subst hval
  simp [parse_array_items, hskip, hres]

theorem parse_array_brackets_step (f : Nat) (pb : ParseBuffer)
    (h91 : ∀ b ∈ pb.content, b = 91)
    (hws : ∀ i, ParseBuffer.isAsciiWs (pb.content.getD i 0) = false)
    (hitems : ∀ acc, (parse_array_items f
      ⟨pb.content, pb.offset, pb.depth + 1, pb.length⟩ acc).1 = none) :
    (parse_array (f + 1) pb).1 = none := by
  by_cases hdep : CJSON_NESTING_LIMIT ≤ pb.depth
  · simp [parse_array, hdep]
  · rcases hd : pb.content.drop pb.offset with - | ⟨bb, rest⟩
    · simp [parse_array, hdep, ParseBuffer.buffer_at_offset, hd]
    · have hbb : bb = 91 :=
        h91 bb (List.drop_subset _ _ (hd ▸ List.mem_cons_self bb rest))
      subst hbb
      have hskip := skip_whitespace_id
        ⟨pb.content, pb.offset + 1, pb.depth + 1, pb.length⟩ (hws (pb.offset + 1))
      have hit := hitems []
      rcases hres : parse_array_items f
        ⟨pb.content, pb.offset, pb.depth + 1, pb.length⟩ [] with ⟨ro, pbr⟩
      rw [hres] at hit
      simp only at hit
      subst hit
      rcases hd2 : pb.content.drop (pb.offset + 1) with - | ⟨bb2, rest2⟩
      · have hca : ¬ (pb.offset + 1 + 0 < pb.content.length) := by
          have := congrArg List.length hd2
          simp only [List.length_drop, List.length_nil] at this
          omega
        simp [parse_array, hdep, ParseBuffer.buffer_at_offset,
          ParseBuffer.can_access_at_index, hd, hskip, hd2, hca, hres]
      · have hbb2 : bb2 = 91 :=
          h91 bb2 (List.drop_subset _ _ (hd2 ▸ List.mem_cons_self bb2 rest2))
        subst hbb2
        simp [parse_array, hdep, ParseBuffer.buffer_at_offset,
          ParseBuffer.can_access_at_index, hd, hskip, hd2, hres]

theorem parse_brackets_fail : ∀ fuel : Nat, ∀ pb : ParseBuffer,
    (∀ b ∈ pb.content, b = 91) →
    (parse_value fuel pb).1 = none ∧ (parse_array fuel pb).1 = none ∧
      ∀ acc, (parse_array_items fuel pb acc).1 = none := by
  intro fuel
  induction fuel with
  | zero => exact fun pb _ => ⟨rfl, rfl, fun _ => rfl⟩
  | succ f IH =>
    intro pb h91
    have hws : ∀ i, ParseBuffer.isAsciiWs (pb.content.getD i 0) = false := by
      intro i
      rw [getD_eq_headD_drop]
      rcases hd : pb.content.drop i with - | ⟨b, rest⟩
      · rfl
      · have hb : b = 91 := h91 b (List.drop_subset _ _ (hd ▸ List.mem_cons_self b rest))
        simp [hb, ParseBuffer.isAsciiWs]
    refine ⟨parse_value_brackets_step f pb h91 (IH pb h91).2.1,
      parse_array_brackets_step f pb h91 hws
        (fun acc => (IH ⟨pb.content, pb.offset, pb.depth + 1, pb.length⟩ h91).2.2 acc),
      fun acc => parse_array_items_brackets_step f pb acc hws
        (IH ⟨pb.content, pb.offset + 1, pb.depth, pb.length⟩ h91).1⟩

theorem nest_drop (a i : Nat) (hi : i < 2 * a) :
    (List.replicate a 91 ++ List.replicate a (93:Nat)).drop i =
      if i < a then 91 :: (List.replicate (a - i - 1) 91 ++ List.replicate a 93)
      else 93 :: List.replicate (2 * a - i - 1) 93 := by
  split_ifs with h
  · rw [List.drop_append_of_le_length (by simp; omega), List.drop_replicate]
    have h2 : a - i = (a - i - 1) + 1 := by omega
    rw [h2, List.replicate_succ, List.cons_append]
    congr 3
  · have h2 : i = (List.replicate a (91:Nat)).length + (i - a) := by simp; omega
    rw [h2, List.drop_append, List.drop_replicate]
    have h3 : a - (i - a) = (2 * a - i - 1) + 1 := by omega
    rw [h3, List.replicate_succ]
    congr 2
    simp
    omega

theorem nest_ws (a : Nat) :
    ∀ i, ParseBuffer.isAsciiWs
      ((List.replicate a 91 ++ List.replicate a (93:Nat)).getD i 0) = false := by
  intro i
  rw [getD_eq_headD_drop]
  rcases hd : (List.replicate a 91 ++ List.replicate a (93:Nat)).drop i with - | ⟨b, rest⟩
  · rw [hd]
    rfl
  · have hm : b ∈ List.replicate a (91:Nat) ++ List.replicate a 93 :=
      List.drop_subset _ _ (hd ▸ List.mem_cons_self b rest)
    rw [hd]
    rcases List.mem_append.mp hm with h | h
    · simp [List.eq_of_mem_replicate h, ParseBuffer.isAsciiWs]
    · simp [List.eq_of_mem_replicate h, ParseBuffer.isAsciiWs]

theorem nest_core_zero (j d fuel : Nat) (hd : d ≤ 999) (hf : 1 ≤ fuel) :
    parse_array fuel
      ⟨List.replicate (j+1) 91 ++ List.replicate (j+1) 93, j, d, 2 * (j+1)⟩ =
      (some (nestedArr 0),
        ⟨List.replicate (j+1) 91 ++ List.replicate (j+1) 93, 2 * (j+1) - 1 - j, d, 2 * (j+1)⟩) := by
  cases fuel with
  | zero => omega
  | succ f =>
    have hoff : 2 * (j + 1) - 1 - j = j + 1 := by omega
    rw [hoff]
    have hdj := nest_drop (j+1) j (by omega)
    rw [if_pos (by omega)] at hdj
    have hdj1 := nest_drop (j+1) (j+1) (by omega)
    rw [if_neg (by omega)] at hdj1
    have hws := nest_ws (j + 1)
    have hskip := skip_whitespace_id
      ⟨List.replicate (j+1) 91 ++ List.replicate (j+1) 93, j + 1, d + 1, 2 * (j+1)⟩
      (hws (j + 1))
    have hdep : ¬ (CJSON_NESTING_LIMIT ≤ d) := by
      simp [CJSON_NESTING_LIMIT]
      omega
    have hca : j + 1 + 0 < (List.replicate (j+1) (91:Nat) ++ List.replicate (j+1) 93).length := by
      simp
    simp [parse_array, hdep, ParseBuffer.buffer_at_offset, ParseBuffer.can_access_at_index,
      hdj, hdj1, hskip, hca, nestedArr]

theorem nest_core : ∀ m a j d fuel : Nat,
    j + 1 + m = a → d + m ≤ 999 → 3 * m + 1 ≤ fuel →
    parse_array fuel ⟨List.replicate a 91 ++ List.replicate a 93, j, d, 2 * a⟩ =
      (some (nestedArr m),
        ⟨List.replicate a 91 ++ List.replicate a 93, 2 * a - 1 - j, d, 2 * a⟩) := by
  intro m
  induction m with
  | zero =>
    intro a j d fuel hj hdd hf
    have ha : a = j + 1 := by omega
    subst ha
    exact nest_core_zero j d fuel (by omega) hf
  | succ m IH =>
    intro a j d fuel hj hdd hf
    obtain ⟨f, rfl⟩ : ∃ f, fuel = f + 1 := ⟨fuel - 1, by omega⟩
    obtain ⟨g, rfl⟩ : ∃ g, f = g + 1 := ⟨f - 1, by omega⟩
    obtain ⟨h2, rfl⟩ : ∃ h2, g = h2 + 1 := ⟨g - 1, by omega⟩
    have hIH := IH a (j + 1) (d + 1) h2 (by omega) (by omega) (by omega)
    have hdj := nest_drop a j (by omega)
    rw [if_pos (by omega)] at hdj
    have hdj1 := nest_drop a (j + 1) (by omega)
    rw [if_pos (by omega)] at hdj1
    have hdAfter := nest_drop a (2 * a - 1 - (j + 1)) (by omega)
    rw [if_neg (by omega)] at hdAfter
    have hws := nest_ws a
    have hskip1 := skip_whitespace_id
      ⟨List.replicate a 91 ++ List.replicate a 93, j + 1, d + 1, 2 * a⟩ (hws (j + 1))
    have hskip3 := skip_whitespace_id
      ⟨List.replicate a 91 ++ List.replicate a 93, 2 * a - 1 - (j + 1), d + 1, 2 * a⟩
      (hws (2 * a - 1 - (j + 1)))
    have hcnil : ¬ (List.replicate a (91:Nat) ++ List.replicate a 93 = []) := by
      simp
      omega
    have hlt1 : j + 1 + 0 < (List.replicate a (91:Nat) ++ List.replicate a 93).length := by
      simp
      omega
    have hval : parse_value (h2 + 1) ⟨List.replicate a 91 ++ List.replicate a 93,
        j + 1, d + 1, 2 * a⟩ =
        (some (nestedArr m),
          ⟨List.replicate a 91 ++ List.replicate a 93, 2 * a - 1 - (j + 1), d + 1, 2 * a⟩) := by
      simp [parse_value, hcnil, ParseBuffer.can_read, ParseBuffer.can_access_at_index,
        ParseBuffer.buffer_at_offset, hdj1, hlt1, listStartsWith, bytesNull, bytesFalse,
        bytesTrue, hIH]
      omega
    have hltA : 2 * a - 1 - (j + 1) + 0 <
        (List.replicate a (91:Nat) ++ List.replicate a 93).length := by
      simp
      omega
    have hitems : parse_array_items (h2 + 1 + 1)
        ⟨List.replicate a 91 ++ List.replicate a 93, j, d + 1, 2 * a⟩ [] =
        (some [nestedArr m],
          ⟨List.replicate a 91 ++ List.replicate a 93, 2 * a - 1 - (j + 1), d + 1, 2 * a⟩) := by
      simp [parse_array_items, hskip1, hval, hskip3, ParseBuffer.buffer_at_offset,
        ParseBuffer.can_access_at_index, hdAfter, hltA]
    have hdep2 : ¬ (CJSON_NESTING_LIMIT ≤ d) := by
      simp [CJSON_NESTING_LIMIT]
      omega
    have hoff : 2 * a - 1 - (j + 1) + 1 = 2 * a - 1 - j := by omega
    have hcno : ¬ ((List.replicate a (91:Nat) ++ List.replicate a 93).length ≤
        2 * a - 1 - (j + 1) + 0) := by
      simp
      omega
    simp [parse_array, hdep2, ParseBuffer.buffer_at_offset, ParseBuffer.can_access_at_index,
      ParseBuffer.cannot_access_at_index, hdj, hdj1, hskip1, hitems, hdAfter, hcno, hoff,
      nestedArr]
    omega

theorem nest_value (m a j d fuel : Nat)
    (hj : j + 1 + m = a) (hdd : d + m ≤ 999) (hf : 3 * m + 2 ≤ fuel) :
    parse_value fuel ⟨List.replicate a 91 ++ List.replicate a 93, j, d, 2 * a⟩ =
      (some (nestedArr m),
        ⟨List.replicate a 91 ++ List.replicate a 93, 2 * a - 1 - j, d, 2 * a⟩) := by
  obtain ⟨f, rfl⟩ : ∃ f, fuel = f + 1 := ⟨fuel - 1, by omega⟩
  have hcore := nest_core m a j d f hj hdd (by omega)
  have hdj := nest_drop a j (by omega)
  rw [if_pos (by omega)] at hdj
  have hcnil : ¬ (List.replicate a (91:Nat) ++ List.replicate a 93 = []) := by
    simp
    omega
  have hlt : j + 0 < (List.replicate a (91:Nat) ++ List.replicate a 93).length := by
    simp
    omega
  simp [parse_value, hcnil, ParseBuffer.can_read, ParseBuffer.can_access_at_index,
    ParseBuffer.buffer_at_offset, hdj, hlt, listStartsWith, bytesNull, bytesFalse,
    bytesTrue, hcore]
  omega

theorem flatMap_replicate (n : Nat) (ch : Char) (b : Nat) (h : utf8EncodeChar ch = [b]) :
    (List.replicate n ch).flatMap utf8EncodeChar = List.replicate n b := by
  induction n with
  | zero => rfl
  | succ k ih => simp [List.replicate_succ, h, ih]

theorem strBytes_openBrackets (n : Nat) :
    strBytes (openBrackets n) = List.replicate n 91 :=
  flatMap_replicate n '[' 91 rfl

theorem strBytes_nestedBrackets (n : Nat) :
    strBytes (nestedBrackets n) = List.replicate n 91 ++ List.replicate n 93 := by
  simp only [strBytes, nestedBrackets, List.flatMap_append]
  rw [flatMap_replicate n '[' 91 rfl, flatMap_replicate n ']' 93 rfl]

theorem openBrackets_ne_empty (n : Nat) (h : n ≠ 0) : openBrackets n ≠ "" := by
  intro heq
  have := congrArg String.data heq
  simp [openBrackets] at this
  omega

theorem nestedBrackets_ne_empty (n : Nat) (h : n ≠ 0) : nestedBrackets n ≠ "" := by
  intro heq
  have := congrArg String.data heq
  simp [nestedBrackets] at this
  omega


theorem wlo_fst (v : String) (len : Nat) (st : ErrSlot) (hv : ¬(v = "" ∨ len = 0)) :
    (cjson_parse_with_length_opts v len false st).1 =
      (parse_value (entryFuel (strBytes v))
        (ParseBuffer.skip_whitespace ⟨strBytes v, 0, 0, len⟩)).1 := by
  simp only [cjson_parse_with_length_opts]
  rw [if_neg hv]
  rcases hpv : parse_value (entryFuel (strBytes v))
      (ParseBuffer.skip_whitespace ⟨strBytes v, 0, 0, len⟩) with ⟨ro, pb1⟩
  cases ro <;> simp

theorem cjson_parse_fst (v : String) (st : ErrSlot) (h : v ≠ "") :
    (cjson_parse v st).1 =
      (cjson_parse_with_length_opts v (strBytes v).length false st).1 := by
  unfold cjson_parse cjson_parse_with_opts
  rw [if_neg h]
  show (match cjson_parse_with_length_opts v (strBytes v).length false st with
    | (r, e, _) => (r, e)).1 =
    (cjson_parse_with_length_opts v (strBytes v).length false st).1
  rcases hW : cjson_parse_with_length_opts v (strBytes v).length false st with ⟨r, e, pe⟩
  rfl

/-- C5: the parser enforces the nesting ceiling CJSON_NESTING_LIMIT = 1000: any
array or object encountered at depth ≥ 1000 makes the parse fail, so a document
of 1001 unmatched open brackets is rejected, while 999 well-nested arrays parse
to the corresponding 999-deep tree. -/
theorem c5_nesting_limit :
    (∀ (fuel : Nat) (pb : ParseBuffer), CJSON_NESTING_LIMIT ≤ pb.depth →
      (parse_array fuel pb).1 = none ∧ (parse_object fuel pb).1 = none) ∧
    (cjson_parse (openBrackets 1001) errCleared).1 = none ∧
    (cjson_parse (nestedBrackets 999) errCleared).1 = some (nestedArr 998) := by
  refine ⟨?_, ?_, ?_⟩
  · intro fuel pb h
    cases fuel with
    | zero => exact ⟨rfl, rfl⟩
    | succ f => exact ⟨by simp [parse_array, h], by simp [parse_object, h]⟩
  · have hne := openBrackets_ne_empty 1001 (by omega)
    rw [cjson_parse_fst _ _ hne]
    rw [wlo_fst _ _ _ (by
      rw [strBytes_openBrackets]
      exact not_or.mpr ⟨hne, by rw [List.length_replicate]; omega⟩)]
    rw [strBytes_openBrackets]
    have h91 : ∀ b ∈ List.replicate 1001 (91:Nat), b = 91 :=
      fun b hb => List.eq_of_mem_replicate hb
    have hws0 : ParseBuffer.isAsciiWs ((List.replicate 1001 (91:Nat)).getD 0 0) = false := by
      rw [getD_eq_headD_drop]
      rcases hd : (List.replicate 1001 (91:Nat)).drop 0 with - | ⟨b, rest⟩
      · rfl
      · have hb : b = 91 := h91 b (List.drop_subset _ _ (hd ▸ List.mem_cons_self b rest))
        simp [hb, ParseBuffer.isAsciiWs]
    rw [skip_whitespace_id _ hws0]
    exact (parse_brackets_fail _ _ h91).1
  · have hne := nestedBrackets_ne_empty 999 (by omega)
    rw [cjson_parse_fst _ _ hne]
    rw [wlo_fst _ _ _ (by
      rw [strBytes_nestedBrackets]
      refine not_or.mpr ⟨hne, ?_⟩
      rw [List.length_append, List.length_replicate, List.length_replicate]
      omega)]
    rw [strBytes_nestedBrackets]
    rw [skip_whitespace_id _ (nest_ws 999 0)]
    have hclen : (List.replicate 999 (91:Nat) ++ List.replicate 999 93).length = 2 * 999 := by
      rw [List.length_append, List.length_replicate, List.length_replicate]
    rw [hclen]
    have hfuel : 3 * 998 + 2 ≤ entryFuel (List.replicate 999 91 ++ List.replicate 999 93) := by
      simp only [entryFuel, List.length_append, List.length_replicate]
      omega
    rw [nest_value 998 999 0 0 _ (by omega) (by omega) hfuel]

theorem c5_nesting_limit_witness :
    (parse_array 5 ⟨[91], 0, 1000, 1⟩).1 = none ∧
      (parse_object 5 ⟨[91], 0, 1000, 1⟩).1 = none :=
  c5_nesting_limit.1 5 ⟨[91], 0, 1000, 1⟩ (by decide)

/-! ## Heap update helpers and sibling-chain lemmas (claim C7) -/

theorem upd_self (σ : Heap) (j : Nat) (f : RNode → RNode) : upd σ j f j = f (σ j) := by
  unfold upd
  rw [if_pos rfl]

theorem upd_ne (σ : Heap) (j : Nat) (f : RNode → RNode) (i : Nat) (h : i ≠ j) :
    upd σ j f i = σ i := by
  unfold upd
  rw [if_neg h]

theorem upd_next_of_prev (σ : Heap) (j : Nat) (p : Option Nat) (i : Nat) :
    (upd σ j (fun n => { n with prev := p }) i).next = (σ i).next := by
  unfold upd
  split <;> rfl

theorem upd_prev_of_next (σ : Heap) (j : Nat) (x : Option Nat) (i : Nat) :
    (upd σ j (fun n => { n with next := x }) i).prev = (σ i).prev := by
  unfold upd
  split <;> rfl

theorem upd_child_of_prev (σ : Heap) (j : Nat) (p : Option Nat) (i : Nat) :
    (upd σ j (fun n => { n with prev := p }) i).child = (σ i).child := by
  unfold upd
  split <;> rfl

theorem upd_child_of_next (σ : Heap) (j : Nat) (x : Option Nat) (i : Nat) :
    (upd σ j (fun n => { n with next := x }) i).child = (σ i).child := by
  unfold upd
  split <;> rfl

theorem objKeyUpd_next (key : String) (ck : Bool) (n : RNode) :
    (objKeyUpd key ck n).next = n.next := rfl

theorem objKeyUpd_prev (key : String) (ck : Bool) (n : RNode) :
    (objKeyUpd key ck n).prev = n.prev := rfl

theorem objKeyUpd_child (key : String) (ck : Bool) (n : RNode) :
    (objKeyUpd key ck n).child = n.child := rfl

theorem upd_next_of_key (σ : Heap) (j : Nat) (key : String) (ck : Bool) (i : Nat) :
    (upd σ j (objKeyUpd key ck) i).next = (σ i).next := by
  unfold upd
  split
  · exact objKeyUpd_next key ck _
  · rfl

theorem upd_prev_of_key (σ : Heap) (j : Nat) (key : String) (ck : Bool) (i : Nat) :
    (upd σ j (objKeyUpd key ck) i).prev = (σ i).prev := by
  unfold upd
  split
  · exact objKeyUpd_prev key ck _
  · rfl

theorem upd_child_of_key (σ : Heap) (j : Nat) (key : String) (ck : Bool) (i : Nat) :
    (upd σ j (objKeyUpd key ck) i).child = (σ i).child := by
  unfold upd
  split
  · exact objKeyUpd_child key ck _
  · rfl

theorem getLast_not_mem_dropLast (l : List Nat) (hne : l ≠ []) (hnd : l.Nodup) :
    l.getLast hne ∉ l.dropLast := by
  intro hmem
  have hsplit := List.dropLast_append_getLast hne
  rw [← hsplit] at hnd
  rcases List.nodup_append.mp hnd with ⟨-, -, hdisj⟩
  exact hdisj hmem (List.mem_singleton_self _)

theorem isChain_snoc (σ σ' : Heap) (item : Nat) :
    ∀ (ids : List Nat) (c : Option Nat),
      isChain σ c ids = true →
      (∀ i ∈ ids.dropLast, (σ' i).next = (σ i).next) →
      (∀ l, ids.getLast? = some l → (σ' l).next = some item) →
      (σ' item).next = none →
      ids ≠ [] →
      isChain σ' c (ids ++ [item]) = true := by
  intro ids
  induction ids with
  | nil => intro c _ _ _ _ hne; exact absurd rfl hne
  | cons x t IH =>
    intro c hch hpre hlast hitem _
    cases c with
    | none => simp [isChain] at hch
    | some c0 =>
      simp only [isChain, Bool.and_eq_true, beq_iff_eq] at hch
      obtain ⟨hx, hch2⟩ := hch
      subst hx
      cases t with
      | nil =>
        have hl := hlast x (by simp)
        simp [isChain, hl, hitem]
      | cons b t2 =>
        have hnx : (σ x).next = some b := by
          cases hnn : (σ x).next with
          | none => rw [hnn] at hch2; simp [isChain] at hch2
          | some c2 =>
            rw [hnn] at hch2
            simp only [isChain, Bool.and_eq_true, beq_iff_eq] at hch2
            rw [hch2.1]
        have hc0pre : (σ' x).next = (σ x).next := by
          apply hpre
          exact List.mem_cons_self x _
        rw [hnx] at hch2
        have IH2 := IH (some b) hch2
          (fun i hi => hpre i (List.mem_cons_of_mem _ hi))
          (fun l hl => hlast l (by rw [List.getLast?_cons_cons]; exact hl))
          hitem (by simp)
        simp only [List.cons_append, isChain, Bool.and_eq_true, beq_iff_eq]
        refine ⟨by trivial, ?_⟩
        rw [hc0pre, hnx]
        exact IH2

theorem object_find_last_eq (σ σ' : Heap)
    (hnx : ∀ i, (σ' i).next = (σ i).next) :
    ∀ (ids : List Nat) (c : Nat) (fuel : Nat),
      isChain σ (some c) ids = true →
      ids.length ≤ fuel + 1 →
      some (object_find_last σ' c fuel) = ids.getLast? := by
  intro ids
  induction ids with
  | nil => intro c fuel hch _; simp [isChain] at hch
  | cons x t IH =>
    intro c fuel hch hlen
    simp only [isChain, Bool.and_eq_true, beq_iff_eq] at hch
    obtain ⟨hx, hch2⟩ := hch
    subst hx
    cases t with
    | nil =>
      have hnn : (σ x).next = none := by
        cases h2 : (σ x).next with
        | none => rfl
        | some u => rw [h2] at hch2; simp [isChain] at hch2
      cases fuel with
      | zero => simp [object_find_last]
      | succ f => simp [object_find_last, hnx x, hnn]
    | cons b t2 =>
      have hnx0 : (σ x).next = some b := by
        cases hnn : (σ x).next with
        | none => rw [hnn] at hch2; simp [isChain] at hch2
        | some c2 =>
          rw [hnn] at hch2
          simp only [isChain, Bool.and_eq_true, beq_iff_eq] at hch2
          rw [hch2.1]
      cases fuel with
      | zero => simp at hlen
      | succ f =>
        rw [List.getLast?_cons_cons]
        rw [hnx0] at hch2
        have hrec := IH b f hch2 (by simp at hlen ⊢; omega)
        rw [show object_find_last σ' x (f + 1) = object_find_last σ' b f from by
          simp [object_find_last, hnx x, hnx0]]
        exact hrec

theorem add_array_ok (σ : Heap) (array item : Nat) (ids : List Nat)
    (hch : isChain σ (σ array).child ids = true)
    (hbe : backEdgeOK σ ids) (hnd : ids.Nodup)
    (hi : item ∉ ids) (ha : array ∉ ids) (hai : array ≠ item)
    (hty : (σ array).item_type = CJSON_ARRAY)
    (hfn : (σ item).next = none) :
    (add_item_to_array σ array item).1 = true ∧
      isChain (add_item_to_array σ array item).2
        ((add_item_to_array σ array item).2 array).child (ids ++ [item]) = true ∧
      backEdgeOK (add_item_to_array σ array item).2 (ids ++ [item]) := by
  have hguard : ¬ (array = item ∨ (σ array).item_type ≠ CJSON_ARRAY) := by
    push_neg
    exact ⟨hai, hty⟩
  cases ids with
  | nil =>
    have hcn : (σ array).child = none := by
      cases hcc : (σ array).child with
      | none => rfl
      | some c => rw [hcc] at hch; simp [isChain] at hch
    have hres : add_item_to_array σ array item =
        (true, upd (upd (upd σ array (fun n => { n with child := some item }))
          item (fun n => { n with prev := some item }))
          item (fun n => { n with next := none })) := by
      unfold add_item_to_array
      rw [if_neg hguard, hcn]
    rw [hres]
    set σ1 := upd σ array (fun n => { n with child := some item }) with hσ1
    set σ2 := upd σ1 item (fun n => { n with prev := some item }) with hσ2
    set σ3 := upd σ2 item (fun n => { n with next := none }) with hσ3
    refine ⟨rfl, ?_, ?_⟩
    · have e1 : (σ3 array).child = some item := by
        rw [hσ3, upd_ne _ _ _ _ hai, hσ2, upd_ne _ _ _ _ hai, hσ1, upd_self]
      have e2 : (σ3 item).next = none := by
        rw [hσ3, upd_self]
      show isChain σ3 (σ3 array).child ([] ++ [item]) = true
      rw [List.nil_append, e1]
      simp [isChain, e2]
    · have e3 : (σ3 item).prev = some item := by
        rw [hσ3, upd_self]
        show (σ2 item).prev = some item
        rw [hσ2, upd_self]
      simp only [List.nil_append]
      show (σ3 item).prev = [item].getLast?
      rw [e3]
      rfl
  | cons x t =>
    have hcc : (σ array).child = some x := by
      cases hc2 : (σ array).child with
      | none => rw [hc2] at hch; simp [isChain] at hch
      | some c =>
        rw [hc2] at hch
        simp only [isChain, Bool.and_eq_true, beq_iff_eq] at hch
        rw [hch.1]
    have hch0 : isChain σ (some x) (x :: t) = true := by rw [← hcc]; exact hch
    have hne := List.cons_ne_nil x t
    set L := (x :: t).getLast hne with hL
    have hgl : (x :: t).getLast? = some L := List.getLast?_eq_getLast _ hne
    have hprev : (σ x).prev = some L := by
      have h0 : (σ x).prev = (x :: t).getLast? := hbe
      rw [h0, hgl]
    have hLmem : L ∈ x :: t := by rw [hL]; exact List.getLast_mem hne
    have hLi : L ≠ item := fun h2 => hi (h2 ▸ hLmem)
    have hres : add_item_to_array σ array item =
        (true, upd (upd (upd σ L (fun n => { n with next := some item }))
          item (fun n => { n with prev := some L }))
          x (fun n => { n with prev := some item })) := by
      unfold add_item_to_array
      rw [if_neg hguard, hcc]
      simp only [hprev]
    rw [hres]
    set σ1 := upd σ L (fun n => { n with next := some item }) with hσ1
    set σ2 := upd σ1 item (fun n => { n with prev := some L }) with hσ2
    set σ3 := upd σ2 x (fun n => { n with prev := some item }) with hσ3
    refine ⟨rfl, ?_, ?_⟩
    · have echild : (σ3 array).child = some x := by
        rw [hσ3, upd_child_of_prev, hσ2, upd_child_of_prev, hσ1,
          upd_child_of_next, hcc]
      have enext : ∀ i, (σ3 i).next = (σ1 i).next := by
        intro i
        rw [hσ3, upd_next_of_prev, hσ2, upd_next_of_prev]
      show isChain σ3 (σ3 array).child ((x :: t) ++ [item]) = true
      rw [echild]
      apply isChain_snoc σ σ3 item (x :: t) (some x) hch0
      · intro i hidl
        have hiL : i ≠ L := fun h2 => getLast_not_mem_dropLast (x :: t) hne hnd
          (by rw [← hL, ← h2]; exact hidl)
        rw [enext i, hσ1, upd_ne _ _ _ _ hiL]
      · intro l hl
        have hlL : l = L := by rw [hgl] at hl; exact (Option.some.inj hl).symm
        subst hlL
        rw [enext L, hσ1, upd_self]
      · rw [enext item, hσ1, upd_ne _ _ _ _ (Ne.symm hLi), hfn]
      · exact hne
    · have e3 : (σ3 x).prev = some item := by rw [hσ3, upd_self]
      show (σ3 x).prev = ((x :: t) ++ [item]).getLast?
      rw [e3, List.getLast?_concat]

theorem add_object_tail (σ : Heap) (object item : Nat) (key : String) (ck : Bool)
    (fuel : Nat) (x : Nat) (t : List Nat)
    (hch : isChain σ (σ object).child (x :: t) = true)
    (hnd : (x :: t).Nodup)
    (hi : item ∉ x :: t) (ho : object ∉ x :: t) (hoi : object ≠ item)
    (hk : key ≠ "") (hty : (σ object).item_type = CJSON_OBJECT)
    (hfn : (σ item).next = none)
    (hfuel : (x :: t).length ≤ fuel + 1) :
    (add_item_to_object σ object key item ck fuel).1 = true ∧
      isChain (add_item_to_object σ object key item ck fuel).2
        ((add_item_to_object σ object key item ck fuel).2 object).child
        ((x :: t) ++ [item]) = true ∧
      ((add_item_to_object σ object key item ck fuel).2 x).prev = (σ x).prev := by
  have hguard : ¬ (object = item ∨ key = "" ∨ (σ object).item_type ≠ CJSON_OBJECT) := by
    push_neg
    exact ⟨hoi, hk, hty⟩
  have hcc : (σ object).child = some x := by
    cases hc2 : (σ object).child with
    | none => rw [hc2] at hch; simp [isChain] at hch
    | some c =>
      rw [hc2] at hch
      simp only [isChain, Bool.and_eq_true, beq_iff_eq] at hch
      rw [hch.1]
  have hch0 : isChain σ (some x) (x :: t) = true := by rw [← hcc]; exact hch
  set σa := upd σ item (objKeyUpd key ck) with hσa
  have hanext : ∀ i, (σa i).next = (σ i).next := by
    intro i
    rw [hσa, upd_next_of_key]
  have hca : (σa object).child = some x := by rw [hσa, upd_child_of_key, hcc]
  have hne := List.cons_ne_nil x t
  set L := (x :: t).getLast hne with hL
  have hgl : (x :: t).getLast? = some L := List.getLast?_eq_getLast _ hne
  have hfl : object_find_last σa x fuel = L := by
    have h2 := object_find_last_eq σ σa hanext (x :: t) x fuel hch0 hfuel
    rw [hgl] at h2
    exact Option.some.inj h2
  have hres : add_item_to_object σ object key item ck fuel =
      (true, upd (upd σa L (fun n => { n with next := some item }))
        item (fun n => { n with prev := some L })) := by
    simp only [add_item_to_object]
    rw [if_neg hguard]
    rw [← hσa]
    rw [hca]
    show (true, upd (upd σa (object_find_last σa x fuel)
        (fun n => { n with next := some item }))
      item (fun n => { n with prev := some (object_find_last σa x fuel) })) =
      (true, upd (upd σa L (fun n => { n with next := some item }))
        item (fun n => { n with prev := some L }))
    rw [hfl]
  rw [hres]
  set σ1 := upd σa L (fun n => { n with next := some item }) with hσ1
  set σo := upd σ1 item (fun n => { n with prev := some L }) with hσo
  refine ⟨rfl, ?_, ?_⟩
  · have echild : (σo object).child = some x := by
      rw [hσo, upd_child_of_prev, hσ1, upd_child_of_next, hca]
    have enext : ∀ i, (σo i).next = (σ1 i).next := by
      intro i
      rw [hσo, upd_next_of_prev]
    have hLmem : L ∈ x :: t := by rw [hL]; exact List.getLast_mem hne
    have hLi : L ≠ item := fun h2 => hi (h2 ▸ hLmem)
    show isChain σo (σo object).child ((x :: t) ++ [item]) = true
    rw [echild]
    apply isChain_snoc σ σo item (x :: t) (some x) hch0
    · intro i hidl
      have hiL : i ≠ L := fun h2 => getLast_not_mem_dropLast (x :: t) hne hnd
        (by rw [← hL, ← h2]; exact hidl)
      rw [enext i, hσ1, upd_ne _ _ _ _ hiL, hanext i]
    · intro l hl
      have hlL : l = L := by rw [hgl] at hl; exact (Option.some.inj hl).symm
      subst hlL
      rw [enext L, hσ1, upd_self]
    · rw [enext item, hσ1, upd_ne _ _ _ _ (Ne.symm hLi), hanext item, hfn]
    · exact hne
  · have hxi : x ≠ item := fun h2 => hi (h2 ▸ List.mem_cons_self x t)
    show (σo x).prev = (σ x).prev
    rw [hσo, upd_ne _ _ _ _ hxi, hσ1, upd_prev_of_next, hσa, upd_prev_of_key]

/-- C7 — counterexample to the original claim: on a heap where node 0 is an
object whose single child (node 1) satisfies the back-edge convention,
`add_item_to_object` succeeds and appends node 2 as the new tail, yet the
first child's `prev` still designates the old tail (node 1), not the newly
appended item. -/
theorem c7_back_edge_counterexample :
    isChain c7heap (c7heap 0).child [1] = true ∧
    backEdgeOK c7heap [1] ∧
    (add_item_to_object c7heap 0 "k" 2 false 8).1 = true ∧
    isChain (add_item_to_object c7heap 0 "k" 2 false 8).2
      ((add_item_to_object c7heap 0 "k" 2 false 8).2 0).child [1, 2] = true ∧
    ((add_item_to_object c7heap 0 "k" 2 false 8).2 1).prev ≠ some 2 :=
  ⟨rfl, rfl, rfl, rfl, by decide⟩

/-- C7 (amended): on a well-formed sibling chain, a successful
`add_item_to_array` appends at the tail and re-establishes the back-edge
convention (the first child's `prev` designates the newly appended item),
but a successful `add_item_to_object` — while it does append the fresh
item at the tail — leaves the first child's `prev` unchanged, so the
convention is not re-established for objects whose chain is nonempty. -/
theorem c7_back_edge_amended :
    (∀ (σ : Heap) (array item : Nat) (ids : List Nat),
      isChain σ (σ array).child ids = true →
      backEdgeOK σ ids → ids.Nodup →
      item ∉ ids → array ∉ ids → array ≠ item →
      (σ array).item_type = CJSON_ARRAY →
      (σ item).next = none →
      (add_item_to_array σ array item).1 = true ∧
        isChain (add_item_to_array σ array item).2
          ((add_item_to_array σ array item).2 array).child (ids ++ [item]) = true ∧
        backEdgeOK (add_item_to_array σ array item).2 (ids ++ [item])) ∧
    (∀ (σ : Heap) (object item : Nat) (key : String) (ck : Bool) (fuel x : Nat)
        (t : List Nat),
      isChain σ (σ object).child (x :: t) = true →
      (x :: t).Nodup → item ∉ x :: t → object ∉ x :: t → object ≠ item →
      key ≠ "" → (σ object).item_type = CJSON_OBJECT →
      (σ item).next = none → (x :: t).length ≤ fuel + 1 →
      (add_item_to_object σ object key item ck fuel).1 = true ∧
        isChain (add_item_to_object σ object key item ck fuel).2
          ((add_item_to_object σ object key item ck fuel).2 object).child
          ((x :: t) ++ [item]) = true ∧
        ((add_item_to_object σ object key item ck fuel).2 x).prev = (σ x).prev) :=
  ⟨fun σ a i ids h1 h2 h3 h4 h5 h6 h7 h8 =>
      add_array_ok σ a i ids h1 h2 h3 h4 h5 h6 h7 h8,
   fun σ o i k c f x t h1 h2 h3 h4 h5 h6 h7 h8 h9 =>
      add_object_tail σ o i k c f x t h1 h2 h3 h4 h5 h6 h7 h8 h9⟩

theorem c7_back_edge_amended_witness :
    ((add_item_to_array c7heapA 0 2).1 = true ∧
      isChain (add_item_to_array c7heapA 0 2).2
        ((add_item_to_array c7heapA 0 2).2 0).child ([1] ++ [2]) = true ∧
      backEdgeOK (add_item_to_array c7heapA 0 2).2 ([1] ++ [2])) ∧
    ((add_item_to_object c7heap 0 "k" 2 false 8).1 = true ∧
      isChain (add_item_to_object c7heap 0 "k" 2 false 8).2
        ((add_item_to_object c7heap 0 "k" 2 false 8).2 0).child ([1] ++ [2]) = true ∧
      ((add_item_to_object c7heap 0 "k" 2 false 8).2 1).prev = (c7heap 1).prev) :=
  ⟨c7_back_edge_amended.1 c7heapA 0 2 [1] (by decide) rfl (by decide) (by decide)
      (by decide) (by decide) rfl rfl,
   c7_back_edge_amended.2 c7heap 0 2 "k" false 8 1 [] (by decide) (by decide)
      (by decide) (by decide) (by decide) (by decide) rfl rfl (by decide)⟩

end CJSONPort
